import Mathlib

/-!
Verification of the S7-200 controller memory-address access layer
(`plc/plc.py`, class `S7_200`): alias translation, address classification,
and the read / write transaction executor, together with shallow models of
the `snap7.util` byte codecs it calls (`get_bool`, `set_bool`, `get_int`,
`set_int`, `get_real`, `set_real`, `get_dword`, `set_dword`).

Modelling conventions:
* Python strings are `List Char`; `upper`/`lower`/`splitOn`/prefix tests are
  defined below and mirror `str.upper()`, `str.lower()`, `str.split(".")`,
  `str.startswith(...)`.
* Python exceptions are an explicit error type `PyErr`; `Except PyErr`
  replaces raising.  `areaErr` is the `ValueError("Unknown memory area …")`
  raised by `_resolve_area` (the spec's AddressClassificationError);
  `valueErr` is any other `ValueError` (e.g. `int()` on a non-numeric
  string, a byte out of `range(256)`, a negative shift count); `indexErr`
  is `IndexError`; `typeErr` is `TypeError`; `structErr` is `struct.error`
  from `struct.pack`; `overflowErr` is `OverflowError`.
* IEEE-754 single-precision floats are represented by their 32-bit
  big-endian bit pattern (a `Nat`); the codecs only ever move those bits
  between a value and four buffer bytes, so this captures the bit-exact
  round-trip behaviour without modelling float arithmetic.
* The device is a total byte store `Area → Int → Int → Nat`
  (area, db number, byte offset ↦ byte); `read_area`/`write_area` calls,
  lock acquisition/release and the post-write `time.sleep(0.05)` are
  recorded in an event trace.
-/

namespace S7

/-- Python exception kinds raised by the code under `plc/plc.py` and by the
`snap7.util` codecs it calls. -/
inductive PyErr
  | areaErr
  | valueErr
  | indexErr
  | typeErr
  | structErr
  | overflowErr
deriving DecidableEq, Repr

/-- The snap7 memory areas used by the code (`Area.DB`, `Area.PE`,
`Area.PA`, `Area.MK`). -/
inductive Area
  | DB
  | PE
  | PA
  | MK
deriving DecidableEq, Repr

/-- The `OutputType` constants of `plc/plc.py` (BOOL=1, INT=2, REAL=3,
DWORD=4). -/
inductive OutputType
  | BOOL
  | INT
  | REAL
  | DWORD
deriving DecidableEq, Repr

/-- A decoded value passing the `getMem`/`writeMem` boundary: Python bool,
int, float (by its IEEE-754 single bit pattern) or unsigned dword. -/
inductive PValue
  | pbool (b : Bool)
  | pint (n : Int)
  | preal (bits : Nat)
  | pdword (n : Nat)
deriving DecidableEq, Repr

/-! ## Python string primitives on `List Char` -/

/-- `str.upper()` (ASCII, as Lean's `Char.toUpper`). -/
def upper (s : List Char) : List Char := s.map Char.toUpper

/-- `str.lower()` (ASCII, as Lean's `Char.toLower`). -/
def lower (s : List Char) : List Char := s.map Char.toLower

/-- `str.startswith(p)`. -/
def isPre : List Char → List Char → Bool
  | [], _ => true
  | _ :: _, [] => false
  | p :: ps, c :: cs => p == c && isPre ps cs

/-- `c in s` for a single character. -/
def hasChar (c : Char) : List Char → Bool
  | [] => false
  | x :: xs => x == c || hasChar c xs

/-- `str.split(sep)` for a one-character separator (always returns at least
one part). -/
def splitOn (sep : Char) : List Char → List (List Char)
  | [] => [[]]
  | c :: rest =>
    let r := splitOn sep rest
    if c = sep then [] :: r
    else
      match r with
      | h :: t => (c :: h) :: t
      | [] => [[c]]

/-- Python sequence indexing `l[i]` for a non-negative index: raises
`IndexError` when out of range. -/
def pyGet {α : Type} (l : List α) (i : Nat) : Except PyErr α :=
  match l.get? i with
  | some x => .ok x
  | none => .error .indexErr

/-- Numeric value of a digit string. -/
def digitsVal (s : List Char) : Nat :=
  s.foldl (fun a c => 10 * a + (c.toNat - 48)) 0

/-- Python `int(s)` restricted to optionally-minus-signed decimal digit
strings; every other string raises `ValueError` (whitespace padding,
`+` signs and `_` separators, which no address uses, are not modelled). -/
def pyIntStr (s : List Char) : Except PyErr Int :=
  match s with
  | '-' :: rest =>
    if rest ≠ [] ∧ rest.all Char.isDigit then .ok (-(digitsVal rest : Int))
    else .error .valueErr
  | _ =>
    if s ≠ [] ∧ s.all Char.isDigit then .ok (digitsVal s : Int)
    else .error .valueErr

/-! ## Address resolver (`_translate_alias`, `_resolve_area`, and the
parsing blocks of `getMem`) -/

/-- `S7_200._translate_alias` (lines 62-82): upper-case, then rewrite
`M<byte>.<bit>` to `VX<byte>.<bit>`, `VD<rest>` to `DB1.DBD<rest>`,
`VW<rest>` to `DB1.DBW<rest>`; anything else is returned upper-cased.
A string starting with `M` that contains more than one `.` makes the
two-variable unpacking `byte, bit = mem[1:].split(".")` raise
`ValueError`. -/
def translateU (mem : List Char) : Except PyErr (List Char) :=
  if isPre ['M'] mem && hasChar '.' mem then
    match splitOn '.' (mem.drop 1) with
    | [byte, bit] => .ok ('V' :: 'X' :: (byte ++ '.' :: bit))
    | _ => .error .valueErr
  else if isPre ['V', 'D'] mem then
    .ok (['D', 'B', '1', '.', 'D', 'B', 'D'] ++ mem.drop 2)
  else if isPre ['V', 'W'] mem then
    .ok (['D', 'B', '1', '.', 'D', 'B', 'W'] ++ mem.drop 2)
  else .ok mem

/-- `_translate_alias` proper: `mem = mem.upper()` followed by the rewrite
rules above. -/
def translate (mem0 : List Char) : Except PyErr (List Char) :=
  translateU (upper mem0)

/-- `S7_200._resolve_area` (lines 84-105): select the snap7 area from the
leading letters, raising `ValueError` (`areaErr`) when none matches. -/
def resolveAreaL (ml : List Char) : Except PyErr Area :=
  if isPre ['d', 'b'] ml then .ok .DB
  else if isPre ['a', 'i'] ml || isPre ['i', 'w'] ml then .ok .PE
  else if isPre ['a', 'q'] ml || isPre ['q', 'w'] ml then .ok .PA
  else if isPre ['q'] ml then .ok .PA
  else if isPre ['i'] ml then .ok .PE
  else if isPre ['v'] ml || isPre ['m'] ml then .ok .MK
  else .error .areaErr

/-- `_resolve_area` proper: `mem_lower = mem.lower()` followed by the
prefix dispatch above. -/
def resolveArea (mem : List Char) : Except PyErr Area :=
  resolveAreaL (lower mem)

/-- The classification `getMem` computes for an (already translated and
lower-cased) address: snap7 area, db number, byte offset, bit offset, read
length in bytes, and inferred output type (`none` when the address fell
through every sub-type branch, in which case the defaults
`start = 0`, `length = 1` survive). -/
structure PMem where
  area : Area
  db_number : Int
  start : Int
  bit : Int
  length : Nat
  out_type : Option OutputType
deriving DecidableEq, Repr

/-- The parsing block of `S7_200.getMem` (lines 116-174), applied to the
translated, lower-cased address.  Mirrors the source branch for branch;
in particular line 129 (`bit = int(sub.split(".")[1])`) indexes the split
of `sub` — the second dot-separated token, which never contains a dot —
so the `dbx` branch always raises `IndexError`. -/
def parseAddr (mem : List Char) : Except PyErr PMem :=
  if isPre ['d', 'b'] mem then
    match pyGet (splitOn '.' mem) 0 with
    | .error e => .error e
    | .ok p0 =>
      match pyIntStr (p0.drop 2) with
      | .error e => .error e
      | .ok dbn =>
        match pyGet (splitOn '.' mem) 1 with
        | .error e => .error e
        | .ok sub =>
          if isPre ['d', 'b', 'x'] sub then
            match pyGet (splitOn '.' (sub.drop 3)) 0 with
            | .error e => .error e
            | .ok s0 =>
              match pyIntStr s0 with
              | .error e => .error e
              | .ok st =>
                match pyGet (splitOn '.' sub) 1 with
                | .error e => .error e
                | .ok b1 =>
                  match pyIntStr b1 with
                  | .error e => .error e
                  | .ok bv => .ok ⟨.DB, dbn, st, bv, 1, some .BOOL⟩
          else if isPre ['d', 'b', 'b'] sub then
            match pyIntStr (sub.drop 3) with
            | .error e => .error e
            | .ok st => .ok ⟨.DB, dbn, st, 0, 1, some .INT⟩
          else if isPre ['d', 'b', 'w'] sub then
            match pyIntStr (sub.drop 3) with
            | .error e => .error e
            | .ok st => .ok ⟨.DB, dbn, st, 0, 2, some .INT⟩
          else if isPre ['d', 'b', 'd'] sub then
            match pyIntStr (sub.drop 3) with
            | .error e => .error e
            | .ok st => .ok ⟨.DB, dbn, st, 0, 4, some .REAL⟩
          else .ok ⟨.DB, dbn, 0, 0, 1, none⟩
  else
    match resolveArea mem with
    | .error e => .error e
    | .ok area =>
      match pyGet mem 1 with
      | .error e => .error e
      | .ok c1 =>
        if c1 = 'x' then
          match pyGet (splitOn '.' (mem.drop 2)) 0 with
          | .error e => .error e
          | .ok s0 =>
            match pyIntStr s0 with
            | .error e => .error e
            | .ok st =>
              match pyGet (splitOn '.' mem) 1 with
              | .error e => .error e
              | .ok b1 =>
                match pyIntStr b1 with
                | .error e => .error e
                | .ok bv => .ok ⟨area, 0, st, bv, 1, some .BOOL⟩
        else if c1 = 'b' then
          match pyIntStr (mem.drop 2) with
          | .error e => .error e
          | .ok st => .ok ⟨area, 0, st, 0, 1, some .INT⟩
        else if c1 = 'w' then
          match pyIntStr (mem.drop 2) with
          | .error e => .error e
          | .ok st => .ok ⟨area, 0, st, 0, 2, some .INT⟩
        else if c1 = 'd' then
          match pyIntStr (mem.drop 2) with
          | .error e => .error e
          | .ok st =>
            .ok ⟨area, 0, st, 0, 4,
              some (if isPre ['v', 'd'] mem then .REAL else .DWORD)⟩
        else if isPre ['a', 'i', 'w'] mem || isPre ['a', 'q', 'w'] mem ||
            isPre ['i', 'w'] mem || isPre ['q', 'w'] mem ||
            isPre ['v', 'w'] mem then
          match pyIntStr (mem.drop 3) with
          | .error e => .error e
          | .ok st => .ok ⟨area, 0, st, 0, 2, some .INT⟩
        else if isPre ['v', 'd'] mem then
          match pyIntStr (mem.drop 2) with
          | .error e => .error e
          | .ok st => .ok ⟨area, 0, st, 0, 4, some .REAL⟩
        else .ok ⟨area, 0, 0, 0, 1, none⟩

/-! ## snap7.util byte codecs

Models of the `snap7.util` accessors imported by `plc/plc.py`.  Buffers are
`List Nat` (one entry per `bytearray` byte); device bytes are masked with
`% 256` exactly where the Python code applies `& 0xff` or `struct.pack`
formats that would reject larger values. -/

/-- `struct.unpack(">h", …)`: two's-complement signed 16-bit value of a
big-endian word. -/
def toSigned16 (n : Nat) : Int :=
  if n < 32768 then (n : Int) else (n : Int) - 65536

/-- Python `int(value)` on the values crossing the `writeMem` boundary.
Floats truncate toward zero; `int()` of an infinity or NaN raises. -/
def float32TruncToInt (bits : Nat) : Except PyErr Int :=
  let s := bits / 2 ^ 31 % 2
  let e := bits / 2 ^ 23 % 256
  let m := bits % 2 ^ 23
  if e = 255 then .error .overflowErr
  else
    let mag : Nat :=
      if e < 127 then 0 else ((2 ^ 23 + m) * 2 ^ (e - 127)) / 2 ^ 23
    .ok (if s = 1 then -(mag : Int) else (mag : Int))

/-- Python `int(value)`. -/
def pyInt : PValue → Except PyErr Int
  | .pbool b => .ok (if b then 1 else 0)
  | .pint n => .ok n
  | .pdword n => .ok (n : Int)
  | .preal bits => float32TruncToInt bits

/-- Conversion of an integer to the nearest IEEE-754 single bit pattern
(round half to even), as `struct.pack(">f", float(n))`; raises
`OverflowError` when the magnitude exceeds the single-precision range.
Only reachable when a caller writes an int to a float-typed address, which
no claim exercises; double rounding through Python's float64 is not
modelled. -/
def intToF32 (n : Int) : Except PyErr Nat :=
  if n = 0 then .ok 0
  else
    let s : Nat := if n < 0 then 1 else 0
    let mag := n.natAbs
    let e := Nat.log2 mag
    let mant :=
      if e ≤ 23 then mag * 2 ^ (23 - e)
      else
        let sh := e - 23
        let q := mag / 2 ^ sh
        let r := mag % 2 ^ sh
        if 2 * r > 2 ^ sh ∨ (2 * r = 2 ^ sh ∧ q % 2 = 1) then q + 1 else q
    let e2 := if mant = 2 ^ 24 then e + 1 else e
    let mant2 := if mant = 2 ^ 24 then 2 ^ 23 else mant
    if 128 ≤ e2 then .error .overflowErr
    else .ok (s * 2 ^ 31 + (e2 + 127) * 2 ^ 23 + (mant2 - 2 ^ 23))

/-- `float(value)` followed by `struct.pack(">f", …)`, producing the 32-bit
pattern that the four buffer bytes will carry. -/
def pyFloat32Bits : PValue → Except PyErr Nat
  | .preal bits => .ok bits
  | .pbool b => .ok (if b then 0x3F800000 else 0)
  | .pint n => intToF32 n
  | .pdword n => intToF32 (n : Int)

/-- `snap7.util.get_bool(bytearray_, byte_index, bool_index)`: test bit
`bool_index` of byte `byte_index`.  `1 << bool_index` raises `ValueError`
for a negative index; the byte access raises `IndexError` out of range. -/
def get_bool (buf : List Nat) (byteIdx : Nat) (bitIdx : Int) :
    Except PyErr Bool :=
  if bitIdx < 0 then .error .valueErr
  else
    let idx := (2 : Nat) ^ bitIdx.toNat
    match pyGet buf byteIdx with
    | .error e => .error e
    | .ok b => .ok (b &&& idx == idx)

/-- `snap7.util.set_bool(bytearray_, byte_index, bool_index, value)`:
validates `value ∈ {0,1}`, reads the current bit, and adds or subtracts
`1 << bool_index` when it differs; storing a byte outside `range(256)`
raises `ValueError`. -/
def set_bool (buf : List Nat) (byteIdx : Nat) (bitIdx : Int)
    (value : Int) : Except PyErr (List Nat) :=
  if value ≠ 0 ∧ value ≠ 1 then .error .typeErr
  else
    match get_bool buf byteIdx bitIdx with
    | .error e => .error e
    | .ok cur =>
      let idx : Int := (2 : Int) ^ bitIdx.toNat
      if cur = (value == 1) then .ok buf
      else
        match pyGet buf byteIdx with
        | .error e => .error e
        | .ok b =>
          let nb : Int := if value == 1 then (b : Int) + idx else (b : Int) - idx
          if nb < 0 ∨ 255 < nb then .error .valueErr
          else .ok (buf.set byteIdx nb.toNat)

/-- `snap7.util.get_int(bytearray_, byte_index)`: big-endian signed 16-bit
from the two bytes at `byte_index`; the slice `[byte_index:byte_index+2]`
followed by `data[1]` raises `IndexError` when fewer than two bytes are
available. -/
def get_int (buf : List Nat) (idx : Nat) : Except PyErr Int :=
  match (buf.drop idx).take 2 with
  | [b0, b1] => .ok (toSigned16 ((b0 % 256) * 256 + b1 % 256))
  | _ => .error .indexErr

/-- `snap7.util.set_int(bytearray_, byte_index, value)`:
`struct.pack(">h", int(value))` (raising `struct.error` outside
[-32768, 32767]) followed by slice assignment
`bytearray_[byte_index:byte_index+2] = _bytes`, which GROWS a buffer
shorter than `byte_index + 2`. -/
def set_int (buf : List Nat) (idx : Nat) (value : PValue) :
    Except PyErr (List Nat) :=
  match pyInt value with
  | .error e => .error e
  | .ok n =>
    if n < -32768 ∨ 32767 < n then .error .structErr
    else
      let u := (n % 65536).toNat
      .ok (buf.take idx ++ [u / 256, u % 256] ++ buf.drop (idx + 2))

/-- Item-by-item assignment `for i, b in enumerate(_bytes):
bytearray_[byte_index+i] = b` used by `set_real` and `set_dword`; raises
`IndexError` past the end of the buffer. -/
def setItems (buf : List Nat) (idx : Nat) : List Nat → Except PyErr (List Nat)
  | [] => .ok buf
  | b :: rest =>
    if 255 < b then .error .valueErr
    else if idx < buf.length then setItems (buf.set idx b) (idx + 1) rest
    else .error .indexErr

/-- `snap7.util.get_real(bytearray_, byte_index)`: big-endian IEEE-754
single from four bytes, returned as its bit pattern; `struct.pack("4B", *x)`
raises when the slice holds fewer than four bytes. -/
def get_real (buf : List Nat) (idx : Nat) : Except PyErr Nat :=
  match (buf.drop idx).take 4 with
  | [a, b, c, d] =>
    .ok ((a % 256) * 2 ^ 24 + (b % 256) * 2 ^ 16 + (c % 256) * 2 ^ 8 + d % 256)
  | _ => .error .structErr

/-- `snap7.util.set_real(bytearray_, byte_index, real)`: pack the value as
big-endian IEEE-754 single and store the four bytes item by item. -/
def set_real (buf : List Nat) (idx : Nat) (value : PValue) :
    Except PyErr (List Nat) :=
  match pyFloat32Bits value with
  | .error e => .error e
  | .ok bits =>
    setItems buf idx
      [bits / 2 ^ 24 % 256, bits / 2 ^ 16 % 256, bits / 2 ^ 8 % 256, bits % 256]

/-- `snap7.util.get_dword(bytearray_, byte_index)`: big-endian unsigned
32-bit from four bytes. -/
def get_dword (buf : List Nat) (idx : Nat) : Except PyErr Nat :=
  match (buf.drop idx).take 4 with
  | [a, b, c, d] =>
    .ok ((a % 256) * 2 ^ 24 + (b % 256) * 2 ^ 16 + (c % 256) * 2 ^ 8 + d % 256)
  | _ => .error .structErr

/-- `snap7.util.set_dword(bytearray_, byte_index, dword)`:
`struct.pack(">I", int(dword))` (raising `struct.error` outside
[0, 2^32)) and store the four bytes item by item. -/
def set_dword (buf : List Nat) (idx : Nat) (value : PValue) :
    Except PyErr (List Nat) :=
  match pyInt value with
  | .error e => .error e
  | .ok n =>
    if n < 0 ∨ (2 : Int) ^ 32 ≤ n then .error .structErr
    else
      let u := n.toNat
      setItems buf idx [u / 2 ^ 24 % 256, u / 2 ^ 16 % 256, u / 2 ^ 8 % 256, u % 256]

/-! ## Device, traces, and the transaction executor -/

/-- The controller's byte store: area, db number, byte offset ↦ byte. -/
def Dev : Type := Area → Int → Int → Nat

/-- A freshly-zeroed device. -/
def dev0 : Dev := fun _ _ _ => 0

/-- `client.read_area(area, db, start, length)`: the `length` bytes from
`start`. -/
def readArea (dev : Dev) (a : Area) (db st : Int) (len : Nat) : List Nat :=
  (List.range len).map fun i => dev a db (st + Int.ofNat i)

/-- `client.write_area(area, db, start, data)`: overwrite the
`data.length` bytes from `start`. -/
def writeArea (dev : Dev) (a : Area) (db st : Int) (data : List Nat) : Dev :=
  fun a2 db2 i =>
    if a2 = a ∧ db2 = db ∧ st ≤ i ∧ i < st + data.length then
      data.getD (i - st).toNat 0
    else dev a2 db2 i

/-- Observable events of a transaction: lock acquisition/release, the two
transport calls, and the settling delay (`time.sleep(0.05)`, recorded in
milliseconds). -/
inductive Ev
  | lockAcq
  | lockRel
  | readE (a : Area) (db st : Int) (len : Nat)
  | writeE (a : Area) (db st : Int) (data : List Nat)
  | sleepE (ms : Nat)
deriving DecidableEq, Repr

/-- `S7_200.getMem(mem, returnByte=True)` (lines 108-184): translate the
alias, lower-case, classify, and read the raw buffer under the lock. -/
def getMemRaw (dev : Dev) (mem0 : List Char) :
    Except PyErr (List Nat) × List Ev :=
  match translate mem0 with
  | .error e => (.error e, [])
  | .ok t =>
    match parseAddr (lower t) with
    | .error e => (.error e, [])
    | .ok p =>
      let data := readArea dev p.area p.db_number p.start p.length
      (.ok data, [.lockAcq, .readE p.area p.db_number p.start p.length, .lockRel])

/-- The decode dispatch of `getMem` (lines 186-202): `None` falls through
when no sub-type branch matched (`out_type` stayed `None`). -/
def decodeVal (ot : Option OutputType) (bit : Int) (data : List Nat) :
    Except PyErr (Option PValue) :=
  match ot with
  | some .BOOL =>
    match get_bool data 0 bit with
    | .error e => .error e
    | .ok v => .ok (some (.pbool v))
  | some .INT =>
    match get_int data 0 with
    | .error e => .error e
    | .ok v => .ok (some (.pint v))
  | some .REAL =>
    match get_real data 0 with
    | .error e => .error e
    | .ok v => .ok (some (.preal v))
  | some .DWORD =>
    match get_dword data 0 with
    | .error e => .error e
    | .ok v => .ok (some (.pdword v))
  | none => .ok none

/-- `S7_200.getMem(mem)` (lines 108-206, `returnByte=False` path):
classify, read under the lock, then decode per the inferred type.  A decode
failure propagates after the transport read has already happened, so the
trace is kept alongside the error. -/
def getMemR (dev : Dev) (mem0 : List Char) :
    Except PyErr (Option PValue) × List Ev :=
  match translate mem0 with
  | .error e => (.error e, [])
  | .ok t =>
    match parseAddr (lower t) with
    | .error e => (.error e, [])
    | .ok p =>
      let data := readArea dev p.area p.db_number p.start p.length
      (decodeVal p.out_type p.bit data,
        [.lockAcq, .readE p.area p.db_number p.start p.length, .lockRel])

/-- The re-parsing and in-place mutation block of `S7_200.writeMem`
(lines 219-277), applied to the translated, lower-cased address and the
buffer read back from the device.  Returns the area, db number, write
offset and mutated buffer.  Mirrors the source branch for branch; note the
word-alias tuple on line 269 is `("aqw", "qw", "vw")` and omits
`"aiw"`/`"iw"`, so an `aiw…` address falls through with `start`
left at its default `0` and the buffer unmutated. -/
def writeMut (mem : List Char) (data : List Nat) (value : PValue) :
    Except PyErr (Area × Int × Int × List Nat) :=
  if isPre ['d', 'b'] mem then
    match pyGet (splitOn '.' mem) 0 with
    | .error e => .error e
    | .ok p0 =>
      match pyIntStr (p0.drop 2) with
      | .error e => .error e
      | .ok dbn =>
        match pyGet (splitOn '.' mem) 1 with
        | .error e => .error e
        | .ok sub =>
          if isPre ['d', 'b', 'x'] sub then
            match pyGet (splitOn '.' (sub.drop 3)) 0 with
            | .error e => .error e
            | .ok s0 =>
              match pyIntStr s0 with
              | .error e => .error e
              | .ok st =>
                match pyGet (splitOn '.' sub) 1 with
                | .error e => .error e
                | .ok b1 =>
                  match pyIntStr b1 with
                  | .error e => .error e
                  | .ok bv =>
                    match pyInt value with
                    | .error e => .error e
                    | .ok n =>
                      match set_bool data 0 bv n with
                      | .error e => .error e
                      | .ok d2 => .ok (.DB, dbn, st, d2)
          else if isPre ['d', 'b', 'b'] sub then
            match pyIntStr (sub.drop 3) with
            | .error e => .error e
            | .ok st =>
              match set_int data 0 value with
              | .error e => .error e
              | .ok d2 => .ok (.DB, dbn, st, d2)
          else if isPre ['d', 'b', 'w'] sub then
            match pyIntStr (sub.drop 3) with
            | .error e => .error e
            | .ok st =>
              match set_int data 0 value with
              | .error e => .error e
              | .ok d2 => .ok (.DB, dbn, st, d2)
          else if isPre ['d', 'b', 'd'] sub then
            match pyIntStr (sub.drop 3) with
            | .error e => .error e
            | .ok st =>
              match set_real data 0 value with
              | .error e => .error e
              | .ok d2 => .ok (.DB, dbn, st, d2)
          else .ok (.DB, dbn, 0, data)
  else
    match resolveArea mem with
    | .error e => .error e
    | .ok area =>
      match pyGet mem 1 with
      | .error e => .error e
      | .ok c1 =>
        if c1 = 'x' then
          match pyGet (splitOn '.' (mem.drop 2)) 0 with
          | .error e => .error e
          | .ok s0 =>
            match pyIntStr s0 with
            | .error e => .error e
            | .ok st =>
              match pyGet (splitOn '.' mem) 1 with
              | .error e => .error e
              | .ok b1 =>
                match pyIntStr b1 with
                | .error e => .error e
                | .ok bv =>
                  match pyInt value with
                  | .error e => .error e
                  | .ok n =>
                    match set_bool data 0 bv n with
                    | .error e => .error e
                    | .ok d2 => .ok (area, 0, st, d2)
        else if c1 = 'b' then
          match pyIntStr (mem.drop 2) with
          | .error e => .error e
          | .ok st =>
            match set_int data 0 value with
            | .error e => .error e
            | .ok d2 => .ok (area, 0, st, d2)
        else if c1 = 'w' then
          match pyIntStr (mem.drop 2) with
          | .error e => .error e
          | .ok st =>
            match set_int data 0 value with
            | .error e => .error e
            | .ok d2 => .ok (area, 0, st, d2)
        else if c1 = 'd' then
          match pyIntStr (mem.drop 2) with
          | .error e => .error e
          | .ok st =>
            if isPre ['v', 'd'] mem then
              match set_real data 0 value with
              | .error e => .error e
              | .ok d2 => .ok (area, 0, st, d2)
            else
              match set_dword data 0 value with
              | .error e => .error e
              | .ok d2 => .ok (area, 0, st, d2)
        else if isPre ['a', 'q', 'w'] mem || isPre ['q', 'w'] mem ||
            isPre ['v', 'w'] mem then
          match pyIntStr (mem.drop 3) with
          | .error e => .error e
          | .ok st =>
            match set_int data 0 value with
            | .error e => .error e
            | .ok d2 => .ok (area, 0, st, d2)
        else if isPre ['v', 'd'] mem then
          match pyIntStr (mem.drop 2) with
          | .error e => .error e
          | .ok st =>
            match set_real data 0 value with
            | .error e => .error e
            | .ok d2 => .ok (area, 0, st, d2)
        else .ok (area, 0, 0, data)

/-- `S7_200.writeMem(mem, value)` (lines 208-289): translate and lower the
address, read the current buffer back via `getMem(…, returnByte=True)`,
mutate it per the re-parsed sub-type, then under the lock write it back and
sleep 50 ms.  Returns the updated device and the transport result code. -/
def writeMemR (dev : Dev) (mem0 : List Char) (value : PValue) :
    Except PyErr (Dev × Nat) × List Ev :=
  match translate mem0 with
  | .error e => (.error e, [])
  | .ok t0 =>
    let mem := lower t0
    match getMemRaw dev mem with
    | (.error e, tr) => (.error e, tr)
    | (.ok data, tr) =>
      match writeMut mem data value with
      | .error e => (.error e, tr)
      | .ok (area, dbn, st, d2) =>
        (.ok (writeArea dev area dbn st d2, 0),
          tr ++ [.lockAcq, .writeE area dbn st d2, .sleepE 50, .lockRel])

/-! ## Auxiliary definitions for the stated properties -/

/-- Checks, tracking the lock-hold depth, that every transport event of a
trace happens while the lock is held and that no release happens without a
matching acquisition. -/
def underLock : Nat → List Ev → Bool
  | _, [] => true
  | d, .lockAcq :: t => underLock (d + 1) t
  | d, .lockRel :: t => decide (d ≠ 0) && underLock (d - 1) t
  | d, .readE _ _ _ _ :: t => decide (d ≠ 0) && underLock d t
  | d, .writeE _ _ _ _ :: t => decide (d ≠ 0) && underLock d t
  | d, .sleepE _ :: t => underLock d t

/-- `Except.ok`-ness, used to state success conditions. -/
def isOkE {α : Type} : Except PyErr α → Bool
  | .ok _ => true
  | .error _ => false

/-- The value has the Python type the address's inferred `OutputType`
expects (bool / int16 / float32 / uint32). -/
def typeMatches : Option OutputType → PValue → Bool
  | some .BOOL, .pbool _ => true
  | some .INT, .pint _ => true
  | some .REAL, .preal _ => true
  | some .DWORD, .pdword _ => true
  | _, _ => false

/-- Well-formedness of a value: a float is represented by a genuine 32-bit
pattern. -/
def wfPV : PValue → Bool
  | .preal bits => decide (bits < 2 ^ 32)
  | _ => true

/-- A device whose bytes all read `0xFF`. -/
def devFF : Dev := fun _ _ _ => 255

/-- The device state after a (successful) write transaction; the untouched
zero device otherwise. -/
def devOf (r : Except PyErr (Dev × Nat) × List Ev) : Dev :=
  match r.1 with
  | .ok (d, _) => d
  | .error _ => dev0

/-- The outcome `writeMem`'s mutation block is expected to produce, given
the classification `getMem` computed for the same address: same area and
db number; the same byte offset and the type-matched codec — except for
`aiw…` addresses, which the write-side branch table omits, leaving the
offset at 0 and the buffer untouched. -/
def mutSpec (mem : List Char) (p : PMem) (data : List Nat) (value : PValue) :
    Except PyErr (Area × Int × Int × List Nat) :=
  if isPre ['a', 'i', 'w'] mem then .ok (p.area, p.db_number, 0, data)
  else
    match p.out_type with
    | some .BOOL =>
      match pyInt value with
      | .error e => .error e
      | .ok n =>
        match set_bool data 0 p.bit n with
        | .error e => .error e
        | .ok d2 => .ok (p.area, p.db_number, p.start, d2)
    | some .INT =>
      match set_int data 0 value with
      | .error e => .error e
      | .ok d2 => .ok (p.area, p.db_number, p.start, d2)
    | some .REAL =>
      match set_real data 0 value with
      | .error e => .error e
      | .ok d2 => .ok (p.area, p.db_number, p.start, d2)
    | some .DWORD =>
      match set_dword data 0 value with
      | .error e => .error e
      | .ok d2 => .ok (p.area, p.db_number, p.start, d2)
    | none => .ok (p.area, p.db_number, p.start, data)

/-! ## Character and string lemmas -/

theorem toNat_ofNat_small (n : Nat) (h1 : n < 55296) :
    (Char.ofNat n).toNat = n := by
  have : n.isValidChar := Or.inl h1
  simp [Char.ofNat, this, Char.ofNatAux, Char.toNat]
  rfl

theorem upper_lower_char (c : Char) : c.toLower.toUpper = c.toUpper := by
  unfold Char.toLower Char.toUpper
  by_cases h : c.toNat ≥ 65 ∧ c.toNat ≤ 90
  · rw [if_pos h]
    have hv : (Char.ofNat (c.toNat + 32)).toNat = c.toNat + 32 :=
      toNat_ofNat_small _ (by omega)
    rw [hv, if_pos (by omega : c.toNat + 32 ≥ 97 ∧ c.toNat + 32 ≤ 122),
      if_neg (by omega : ¬ (c.toNat ≥ 97 ∧ c.toNat ≤ 122))]
    have h32 : c.toNat + 32 - 32 = c.toNat := by omega
    rw [h32, Char.ofNat_toNat]
  · rw [if_neg h]

theorem upper_upper_char (c : Char) : c.toUpper.toUpper = c.toUpper := by
  unfold Char.toUpper
  by_cases h : c.toNat ≥ 97 ∧ c.toNat ≤ 122
  · rw [if_pos h]
    have hv : (Char.ofNat (c.toNat - 32)).toNat = c.toNat - 32 :=
      toNat_ofNat_small _ (by omega)
    rw [hv, if_neg (by omega : ¬ (c.toNat - 32 ≥ 97 ∧ c.toNat - 32 ≤ 122))]
  · rw [if_neg h, if_neg h]

theorem upper_dot_iff (c : Char) : c.toUpper = '.' ↔ c = '.' := by
  constructor
  · intro h
    unfold Char.toUpper at h
    by_cases hc : c.toNat ≥ 97 ∧ c.toNat ≤ 122
    · rw [if_pos hc] at h
      have hv : (Char.ofNat (c.toNat - 32)).toNat = c.toNat - 32 :=
        toNat_ofNat_small _ (by omega)
      rw [h] at hv
      have : ('.' : Char).toNat = 46 := rfl
      omega
    · rwa [if_neg hc] at h
  · intro h; subst h; rfl

theorem upper_append (a b : List Char) : upper (a ++ b) = upper a ++ upper b :=
  List.map_append _ _ _

theorem upper_cons (c : Char) (s : List Char) :
    upper (c :: s) = c.toUpper :: upper s := rfl

theorem upper_upper (s : List Char) : upper (upper s) = upper s := by
  unfold upper
  rw [List.map_map]
  exact List.map_congr_left fun c _ => upper_upper_char c

theorem upper_lower (s : List Char) : upper (lower s) = upper s := by
  unfold upper lower
  rw [List.map_map]
  exact List.map_congr_left fun c _ => upper_lower_char c

theorem upper_fixed_of (s : List Char) (h : ∀ c ∈ s, c.toUpper = c) :
    upper s = s := by
  unfold upper
  calc s.map Char.toUpper = s.map id := List.map_congr_left h
  _ = s := List.map_id s

theorem mem_upper_fixed {c : Char} {s : List Char} (h : c ∈ upper s) :
    c.toUpper = c := by
  obtain ⟨x, _, hx⟩ := List.mem_map.mp h
  rw [← hx]
  exact upper_upper_char x

theorem hasChar_append (c : Char) (a b : List Char) :
    hasChar c (a ++ b) = (hasChar c a || hasChar c b) := by
  induction a with
  | nil => rfl
  | cons x xs ih => simp [hasChar, ih, Bool.or_assoc]

theorem hasChar_false_iff (c : Char) (s : List Char) :
    hasChar c s = false ↔ ∀ x ∈ s, x ≠ c := by
  induction s with
  | nil => simp [hasChar]
  | cons x xs ih =>
    simp only [hasChar, Bool.or_eq_false_iff, beq_eq_false_iff_ne, ih,
      List.mem_cons]
    constructor
    · rintro ⟨h1, h2⟩ y (rfl | hy)
      · exact h1
      · exact h2 y hy
    · intro h
      exact ⟨h x (Or.inl rfl), fun y hy => h y (Or.inr hy)⟩

theorem hasChar_upper_dot (s : List Char) :
    hasChar '.' (upper s) = hasChar '.' s := by
  induction s with
  | nil => rfl
  | cons x xs ih =>
    show (x.toUpper == '.' || hasChar '.' (upper xs)) = (x == '.' || _)
    rw [ih]
    by_cases h : x = '.'
    · subst h; rfl
    · have h2 : x.toUpper ≠ '.' := fun hh => h ((upper_dot_iff x).mp hh)
      have e1 : (x.toUpper == '.') = false := beq_eq_false_iff_ne.mpr h2
      have e2 : (x == '.') = false := beq_eq_false_iff_ne.mpr h
      rw [e1, e2]

theorem splitOn_ne_nil (sep : Char) (s : List Char) : splitOn sep s ≠ [] := by
  cases s with
  | nil => simp [splitOn]
  | cons c rest =>
    simp only [splitOn]
    by_cases hc : c = sep
    · rw [if_pos hc]
      simp
    · rw [if_neg hc]
      rcases h : splitOn sep rest with _ | ⟨hd, tl⟩ <;> simp

theorem splitOn_no_sep (sep : Char) (s : List Char)
    (h : hasChar sep s = false) : splitOn sep s = [s] := by
  induction s with
  | nil => rfl
  | cons c rest ih =>
    simp only [hasChar, Bool.or_eq_false_iff, beq_eq_false_iff_ne] at h
    simp only [splitOn, ih h.2, if_neg h.1]

theorem splitOn_append_sep (sep : Char) (a b : List Char)
    (h : hasChar sep a = false) :
    splitOn sep (a ++ sep :: b) = a :: splitOn sep b := by
  induction a with
  | nil => simp [splitOn]
  | cons c rest ih =>
    simp only [hasChar, Bool.or_eq_false_iff, beq_eq_false_iff_ne] at h
    simp only [List.cons_append, splitOn, if_neg h.1, List.append_eq]
    rw [ih h.2]

theorem mem_splitOn_no_sep {sep : Char} {p s : List Char}
    (h : p ∈ splitOn sep s) : hasChar sep p = false := by
  induction s generalizing p with
  | nil => simp [splitOn] at h; simp [h, hasChar]
  | cons c rest ih =>
    simp only [splitOn] at h
    by_cases hc : c = sep
    · rw [if_pos hc] at h
      rcases List.mem_cons.mp h with h1 | h1
      · simp [h1, hasChar]
      · exact ih h1
    · rw [if_neg hc] at h
      rcases hsp : splitOn sep rest with _ | ⟨hd, tl⟩
      · exact absurd hsp (splitOn_ne_nil sep rest)
      · rw [hsp] at h
        rcases List.mem_cons.mp h with h1 | h1
        · subst h1
          have hhd : hd ∈ splitOn sep rest := by rw [hsp]; exact List.mem_cons_self _ _
          have := ih hhd
          simp [hasChar, hc, this]
        · exact ih (by rw [hsp]; exact List.mem_cons_of_mem _ h1)

theorem mem_of_mem_splitOn {sep : Char} {x : Char} {p s : List Char}
    (hx : x ∈ p) (h : p ∈ splitOn sep s) : x ∈ s := by
  induction s generalizing p with
  | nil => simp [splitOn] at h; subst h; simp at hx
  | cons c rest ih =>
    simp only [splitOn] at h
    by_cases hc : c = sep
    · rw [if_pos hc] at h
      rcases List.mem_cons.mp h with h1 | h1
      · subst h1; simp at hx
      · exact List.mem_cons_of_mem _ (ih hx h1)
    · rw [if_neg hc] at h
      rcases hsp : splitOn sep rest with _ | ⟨hd, tl⟩
      · exact absurd hsp (splitOn_ne_nil sep rest)
      · rw [hsp] at h
        rcases List.mem_cons.mp h with h1 | h1
        · subst h1
          rcases List.mem_cons.mp hx with h2 | h2
          · simp [h2]
          · have hhd : hd ∈ splitOn sep rest := by rw [hsp]; exact List.mem_cons_self _ _
            exact List.mem_cons_of_mem _ (ih h2 hhd)
        · exact List.mem_cons_of_mem _ (ih hx (by rw [hsp]; exact List.mem_cons_of_mem _ h1))

/-! ## Characterisations of `_translate_alias` -/

theorem translate_eq_of_upper_eq {a b : List Char} (h : upper a = upper b) :
    translate a = translate b := by
  unfold translate
  rw [h]

theorem translate_m {s b t : List Char}
    (hs : upper s = 'M' :: (b ++ '.' :: t))
    (hb : hasChar '.' b = false) (ht : hasChar '.' t = false) :
    translate s = .ok ('V' :: 'X' :: (b ++ '.' :: t)) := by
  unfold translate translateU
  rw [hs]
  have hpre : isPre ['M'] ('M' :: (b ++ '.' :: t)) = true := by
    simp [isPre]
  have hdot : hasChar '.' ('M' :: (b ++ '.' :: t)) = true := by
    simp [hasChar, hasChar_append]
  rw [hpre, hdot]
  show (match splitOn '.' ((b ++ '.' :: t)) with
    | [byte, bit] => Except.ok ('V' :: 'X' :: (byte ++ '.' :: bit))
    | _ => Except.error PyErr.valueErr) = _
  rw [splitOn_append_sep '.' b t hb, splitOn_no_sep '.' t ht]

theorem translate_m_err {s b c r : List Char}
    (hs : upper s = 'M' :: (b ++ '.' :: (c ++ '.' :: r)))
    (hb : hasChar '.' b = false) (hc : hasChar '.' c = false) :
    translate s = .error .valueErr := by
  unfold translate translateU
  rw [hs]
  have hpre : isPre ['M'] ('M' :: (b ++ '.' :: (c ++ '.' :: r))) = true := by
    simp [isPre]
  have hdot : hasChar '.' ('M' :: (b ++ '.' :: (c ++ '.' :: r))) = true := by
    simp [hasChar, hasChar_append]
  rw [hpre, hdot]
  show (match splitOn '.' ((b ++ '.' :: (c ++ '.' :: r))) with
    | [byte, bit] => Except.ok ('V' :: 'X' :: (byte ++ '.' :: bit))
    | _ => Except.error PyErr.valueErr) = _
  rw [splitOn_append_sep '.' b _ hb, splitOn_append_sep '.' c r hc]
  rcases hsp : splitOn '.' r with _ | ⟨hd, tl⟩
  · exact absurd hsp (splitOn_ne_nil '.' r)
  · rfl

theorem translate_vd {s r : List Char} (hs : upper s = 'V' :: 'D' :: r) :
    translate s = .ok (['D', 'B', '1', '.', 'D', 'B', 'D'] ++ r) := by
  unfold translate translateU
  rw [hs]
  have hM : (isPre ['M'] ('V' :: 'D' :: r) && hasChar '.' ('V' :: 'D' :: r))
      = false := by
    simp [isPre]
  have hVD : isPre ['V', 'D'] ('V' :: 'D' :: r) = true := by simp [isPre]
  rw [hM, hVD]
  rfl

theorem translate_vw {s r : List Char} (hs : upper s = 'V' :: 'W' :: r) :
    translate s = .ok (['D', 'B', '1', '.', 'D', 'B', 'W'] ++ r) := by
  unfold translate translateU
  rw [hs]
  have hM : (isPre ['M'] ('V' :: 'W' :: r) && hasChar '.' ('V' :: 'W' :: r))
      = false := by
    simp [isPre]
  have hVD : isPre ['V', 'D'] ('V' :: 'W' :: r) = false := by simp [isPre]
  have hVW : isPre ['V', 'W'] ('V' :: 'W' :: r) = true := by simp [isPre]
  rw [hM, hVD, hVW]
  rfl

theorem translate_other {s : List Char}
    (hM : (isPre ['M'] (upper s) && hasChar '.' (upper s)) = false)
    (hVD : isPre ['V', 'D'] (upper s) = false)
    (hVW : isPre ['V', 'W'] (upper s) = false) :
    translate s = .ok (upper s) := by
  unfold translate translateU
  rw [hM, hVD, hVW]
  rfl

theorem translate_shape {s t : List Char} (h : translate s = .ok t) :
    upper t = t ∧ translate t = .ok t := by
  have hfix : ∀ c ∈ upper s, c.toUpper = c := fun c hc => mem_upper_fixed hc
  by_cases hM : (isPre ['M'] (upper s) && hasChar '.' (upper s)) = true
  · unfold translate translateU at h
    rw [hM] at h
    rcases hsp : splitOn '.' ((upper s).drop 1) with _ | ⟨b1, _ | ⟨b2, _ | ⟨b3, tl⟩⟩⟩
    · exact absurd hsp (splitOn_ne_nil _ _)
    · rw [hsp] at h; cases h
    · rw [hsp] at h
      have ht : t = 'V' :: 'X' :: (b1 ++ '.' :: b2) := by
        cases h; rfl
      subst ht
      have hmem : ∀ c, c ∈ b1 ∨ c ∈ b2 → c.toUpper = c := by
        rintro c (hc | hc)
        · refine hfix c (List.mem_of_mem_drop (n := 1) ?_)
          exact mem_of_mem_splitOn hc (by rw [hsp]; simp)
        · refine hfix c (List.mem_of_mem_drop (n := 1) ?_)
          exact mem_of_mem_splitOn hc (by rw [hsp]; simp)
      have hup : upper ('V' :: 'X' :: (b1 ++ '.' :: b2)) =
          'V' :: 'X' :: (b1 ++ '.' :: b2) := by
        refine upper_fixed_of _ ?_
        intro c hc
        rcases List.mem_cons.mp hc with rfl | hc
        · rfl
        rcases List.mem_cons.mp hc with rfl | hc
        · rfl
        rcases List.mem_append.mp hc with hc | hc
        · exact hmem c (Or.inl hc)
        rcases List.mem_cons.mp hc with rfl | hc
        · rfl
        · exact hmem c (Or.inr hc)
      refine ⟨hup, ?_⟩
      rw [translate_other (s := 'V' :: 'X' :: (b1 ++ '.' :: b2)) ?_ ?_ ?_, hup] <;>
        rw [hup] <;> simp [isPre]
    · rw [hsp] at h
      cases h
  · by_cases hVD : isPre ['V', 'D'] (upper s) = true
    · unfold translate translateU at h
      rw [Bool.not_eq_true] at hM
      rw [hM, hVD] at h
      have ht : t = ['D', 'B', '1', '.', 'D', 'B', 'D'] ++ (upper s).drop 2 := by
        cases h; rfl
      subst ht
      have hup : upper (['D', 'B', '1', '.', 'D', 'B', 'D'] ++ (upper s).drop 2) =
          ['D', 'B', '1', '.', 'D', 'B', 'D'] ++ (upper s).drop 2 := by
        refine upper_fixed_of _ ?_
        intro c hc
        rcases List.mem_append.mp hc with hc | hc
        · fin_cases hc <;> rfl
        · exact hfix c (List.mem_of_mem_drop hc)
      refine ⟨hup, ?_⟩
      rw [translate_other ?_ ?_ ?_, hup] <;> rw [hup] <;> simp [isPre]
    · by_cases hVW : isPre ['V', 'W'] (upper s) = true
      · unfold translate translateU at h
        rw [Bool.not_eq_true] at hM
        rw [Bool.not_eq_true] at hVD
        rw [hM, hVD, hVW] at h
        have ht : t = ['D', 'B', '1', '.', 'D', 'B', 'W'] ++ (upper s).drop 2 := by
          cases h; rfl
        subst ht
        have hup : upper (['D', 'B', '1', '.', 'D', 'B', 'W'] ++ (upper s).drop 2) =
            ['D', 'B', '1', '.', 'D', 'B', 'W'] ++ (upper s).drop 2 := by
          refine upper_fixed_of _ ?_
          intro c hc
          rcases List.mem_append.mp hc with hc | hc
          · fin_cases hc <;> rfl
          · exact hfix c (List.mem_of_mem_drop hc)
        refine ⟨hup, ?_⟩
        rw [translate_other ?_ ?_ ?_, hup] <;> rw [hup] <;> simp [isPre]
      · rw [Bool.not_eq_true] at hM hVD hVW
        have heq : translate s = .ok (upper s) := translate_other hM hVD hVW
        rw [heq] at h
        have ht : t = upper s := by cases h; rfl
        subst ht
        refine ⟨upper_upper s, ?_⟩
        rw [translate_other ?_ ?_ ?_, upper_upper s] <;>
          rw [upper_upper s] <;> assumption

theorem translate_fix {s t : List Char} (h : translate s = .ok t) :
    translate t = .ok t := (translate_shape h).2

theorem translate_lower_fix {s t : List Char} (h : translate s = .ok t) :
    translate (lower t) = .ok t := by
  rw [translate_eq_of_upper_eq (upper_lower t)]
  exact translate_fix h

/-! ## Device and codec lemmas -/

theorem length_readArea (dev : Dev) (a : Area) (db st : Int) (len : Nat) :
    (readArea dev a db st len).length = len := by
  unfold readArea
  rw [List.length_map, List.length_range]

theorem getElem_readArea (dev : Dev) (a : Area) (db st : Int) (l i : Nat)
    (h : i < (readArea dev a db st l).length) :
    (readArea dev a db st l)[i] = dev a db (st + i) := by
  unfold readArea at h ⊢
  rw [List.getElem_map, List.getElem_range]
  rfl

theorem readArea_writeArea (dev : Dev) (a : Area) (db st : Int)
    (data : List Nat) (l : Nat) (hl : l ≤ data.length) :
    readArea (writeArea dev a db st data) a db st l = data.take l := by
  apply List.ext_getElem
  · rw [length_readArea, List.length_take]
    omega
  · intro i h1 h2
    rw [length_readArea] at h1
    rw [getElem_readArea _ _ _ _ _ _ (by rw [length_readArea]; omega),
      List.getElem_take]
    unfold writeArea
    rw [if_pos ⟨rfl, rfl, by omega, by omega⟩]
    have hi : ((st + (i : Int)) - st).toNat = i := by omega
    rw [hi, List.getD_eq_getElem data 0 (by omega)]

theorem readArea_dev0 (a : Area) (db st : Int) (len : Nat) :
    readArea dev0 a db st len = List.replicate len 0 := by
  simp [readArea, dev0, List.eq_replicate_iff]

/-- `toSigned16` is the two-sided inverse of the `% 2^16` encoding on the
int16 range. -/
theorem toSigned16_emod (n : Int) (h1 : -32768 ≤ n) (h2 : n ≤ 32767) :
    toSigned16 ((n % 65536).toNat) = n := by
  unfold toSigned16
  have h3 : 0 ≤ n % 65536 := Int.emod_nonneg n (by norm_num)
  have h4 : n % 65536 < 65536 := Int.emod_lt_of_pos n (by norm_num)
  split <;> omega

theorem get_int_two (x y : Nat) :
    get_int [x, y] 0 = .ok (toSigned16 ((x % 256) * 256 + y % 256)) := rfl

theorem get_int_one (b : Nat) : get_int [b] 0 = .error .indexErr := rfl

theorem get_real_four (a b c d : Nat) :
    get_real [a, b, c, d] 0 =
      .ok ((a % 256) * 2 ^ 24 + (b % 256) * 2 ^ 16 + (c % 256) * 2 ^ 8 + d % 256) :=
  rfl

theorem get_dword_four (a b c d : Nat) :
    get_dword [a, b, c, d] 0 =
      .ok ((a % 256) * 2 ^ 24 + (b % 256) * 2 ^ 16 + (c % 256) * 2 ^ 8 + d % 256) :=
  rfl

theorem setItems_cons (buf : List Nat) (idx b : Nat) (rest : List Nat)
    (hb : b ≤ 255) (hidx : idx < buf.length) :
    setItems buf idx (b :: rest) = setItems (buf.set idx b) (idx + 1) rest := by
  rw [setItems, if_neg (by omega), if_pos hidx]

theorem setItems_four (a b c d : Nat) (ha : a ≤ 255) (hb : b ≤ 255)
    (hc : c ≤ 255) (hd : d ≤ 255) (x0 x1 x2 x3 : Nat) :
    setItems [x0, x1, x2, x3] 0 [a, b, c, d] = .ok [a, b, c, d] := by
  rw [setItems_cons _ _ _ _ ha (by simp), setItems_cons _ _ _ _ hb (by simp),
    setItems_cons _ _ _ _ hc (by simp), setItems_cons _ _ _ _ hd (by simp)]
  rfl

/-- Reassembling the four big-endian bytes of a 32-bit value. -/
theorem bytes32_reassemble (u : Nat) (h : u < 2 ^ 32) :
    (u / 2 ^ 24 % 256 % 256) * 2 ^ 24 + (u / 2 ^ 16 % 256 % 256) * 2 ^ 16 +
      (u / 2 ^ 8 % 256 % 256) * 2 ^ 8 + u % 256 % 256 = u := by
  omega

theorem get_bool_zero (bit : Int) (h : 0 ≤ bit) :
    get_bool [0] 0 bit = .ok false := by
  unfold get_bool
  rw [if_neg (by omega)]
  have h1 : (0 : Nat) &&& 2 ^ bit.toNat = 0 := Nat.zero_and _
  have h2 : (0 : Nat) ≠ 2 ^ bit.toNat := by positivity
  simp [pyGet, h1, h2]

theorem get_bool_pow (bit : Int) (h : 0 ≤ bit) :
    get_bool [2 ^ bit.toNat] 0 bit = .ok true := by
  unfold get_bool
  rw [if_neg (by omega)]
  simp [pyGet, Nat.and_self]

/-- Inversion for `set_bool` on the 1-byte zero buffer (the only buffer a
bit-typed write over a zeroed device mutates). -/
theorem set_bool_zero_inv (bit v : Int) (d2 : List Nat)
    (h : set_bool [0] 0 bit v = .ok d2) :
    0 ≤ bit ∧ ((v = 1 ∧ d2 = [2 ^ bit.toNat] ∧ 2 ^ bit.toNat ≤ 255) ∨
      (v = 0 ∧ d2 = [0])) := by
  unfold set_bool at h
  by_cases hv : v ≠ 0 ∧ v ≠ 1
  · rw [if_pos hv] at h; cases h
  · rw [if_neg hv] at h
    by_cases hb : bit < 0
    · unfold get_bool at h
      rw [if_pos hb] at h
      cases h
    · push_neg at hb
      rw [get_bool_zero bit hb] at h
      dsimp only at h
      refine ⟨hb, ?_⟩
      by_cases h1 : v = 1
      · subst h1
        rw [if_neg (by simp)] at h
        dsimp only [pyGet, List.get?] at h
        simp only [beq_self_eq_true, eq_self_iff_true, if_true] at h
        split at h
        · cases h
        · next hr =>
          push_neg at hr
          cases h
          have hcast : ((2 : Int) ^ bit.toNat) = ((2 ^ bit.toNat : Nat) : Int) := by
            push_cast
            ring
          rw [hcast] at hr ⊢
          generalize (2 ^ bit.toNat : Nat) = k at hr ⊢
          refine Or.inl ⟨rfl, ?_, by omega⟩
          simp only [List.set]
          congr 1
          omega
      · have h0 : v = 0 := by
          rcases not_and_or.mp hv with hv1 | hv1 <;> push_neg at hv1
          · exact hv1
          · exact absurd hv1 h1
        subst h0
        rw [if_pos (by simp)] at h
        cases h
        exact Or.inr ⟨rfl, rfl⟩

theorem toLower_toLower (c : Char) : c.toLower.toLower = c.toLower := by
  unfold Char.toLower
  by_cases h : c.toNat ≥ 65 ∧ c.toNat ≤ 90
  · rw [if_pos h]
    have hv : (Char.ofNat (c.toNat + 32)).toNat = c.toNat + 32 :=
      toNat_ofNat_small _ (by omega)
    rw [hv, if_neg (by omega : ¬ (c.toNat + 32 ≥ 65 ∧ c.toNat + 32 ≤ 90))]
  · rw [if_neg h, if_neg h]

theorem lower_lower (s : List Char) : lower (lower s) = lower s := by
  unfold lower
  rw [List.map_map]
  exact List.map_congr_left fun c _ => toLower_toLower c

/-- When the area prefix of an (already lower-cased) address resolves to
nothing, `getMem`'s parser propagates exactly the classification error,
before any transport access. -/
theorem parseAddr_resolve_err {t : List Char}
    (h : resolveArea (lower t) = .error .areaErr) :
    parseAddr (lower t) = .error .areaErr := by
  have hdb : isPre ['d', 'b'] (lower t) = false := by
    by_contra hc
    rw [Bool.not_eq_false] at hc
    unfold resolveArea resolveAreaL at h
    rw [lower_lower, if_pos hc] at h
    cases h
  unfold parseAddr
  rw [if_neg (by rw [hdb]; simp), h]

/-! ## Correlation between the read-side and write-side parsers -/

theorem pyGet_ok_mem {α : Type} {l : List α} {i : Nat} {x : α}
    (h : pyGet l i = .ok x) : x ∈ l := by
  unfold pyGet at h
  cases hg : l.get? i with
  | none => rw [hg] at h; cases h
  | some y => rw [hg] at h; cases h; exact List.get?_mem hg

theorem pyGet_one {α : Type} {l : List α} {x : α} (h : pyGet l 1 = .ok x) :
    ∃ c0 rest, l = c0 :: x :: rest := by
  cases l with
  | nil => cases h
  | cons a t =>
    cases t with
    | nil => cases h
    | cons b r =>
      simp only [pyGet, List.get?] at h
      cases h
      exact ⟨a, r, rfl⟩

theorem splitOn_pyGet_one_err {sub : List Char}
    (h : hasChar '.' sub = false) :
    pyGet (splitOn '.' sub) 1 = .error .indexErr := by
  rw [splitOn_no_sep '.' sub h]
  rfl

theorem isPre_head {p : Char} {ps m : List Char}
    (h : isPre (p :: ps) m = true) : ∃ cs, m = p :: cs ∧ isPre ps cs = true := by
  cases m with
  | nil => cases h
  | cons c cs =>
    simp only [isPre, Bool.and_eq_true, beq_iff_eq] at h
    exact ⟨cs, by rw [h.1], h.2⟩

/-- The central correlation lemma: when `getMem`'s parser classifies an
address, `writeMem`'s re-parsing and mutation block produces exactly the
`mutSpec` outcome for that classification, and the classification's read
length is the width of its inferred type. -/
theorem parse_corr (mem : List Char) (data : List Nat) (v : PValue)
    (p : PMem) (hp : parseAddr mem = .ok p) :
    writeMut mem data v = mutSpec mem p data v ∧
    (p.out_type = some .BOOL → p.length = 1) ∧
    (p.out_type = some .INT → p.length = 1 ∨ p.length = 2) ∧
    (p.out_type = some .REAL → p.length = 4) ∧
    (p.out_type = some .DWORD → p.length = 4) ∧
    (p.out_type = none → p.start = 0 ∧ p.length = 1) ∧
    (isPre ['a', 'i', 'w'] mem = true → p.out_type = some .INT ∧ p.length = 2) := by
  unfold parseAddr at hp
  unfold writeMut mutSpec
  by_cases hdb : isPre ['d', 'b'] mem = true
  · obtain ⟨cs, hmem, _⟩ := isPre_head hdb
    have haiw : isPre ['a', 'i', 'w'] mem = false := by
      rw [hmem]
      simp [isPre, show (('a' : Char) == 'd') = false from by decide]
    rw [if_pos hdb] at hp
    rw [if_pos hdb, if_neg (by rw [haiw]; simp)]
    cases h0 : pyGet (splitOn '.' mem) 0 with
    | error e => rw [h0] at hp; cases hp
    | ok p0 =>
      rw [h0] at hp
      dsimp only at hp ⊢
      cases h1 : pyIntStr (p0.drop 2) with
      | error e => rw [h1] at hp; cases hp
      | ok dbn =>
        rw [h1] at hp
        dsimp only at hp ⊢
        cases h2 : pyGet (splitOn '.' mem) 1 with
        | error e => rw [h2] at hp; cases hp
        | ok sub =>
          rw [h2] at hp
          dsimp only at hp ⊢
          have hsubdot : hasChar '.' sub = false :=
            mem_splitOn_no_sep (pyGet_ok_mem h2)
          by_cases hdbx : isPre ['d', 'b', 'x'] sub = true
          · rw [if_pos hdbx] at hp
            cases h3 : pyGet (splitOn '.' (sub.drop 3)) 0 with
            | error e => rw [h3] at hp; cases hp
            | ok s0 =>
              rw [h3] at hp
              dsimp only at hp
              cases h4 : pyIntStr s0 with
              | error e => rw [h4] at hp; cases hp
              | ok st =>
                rw [h4] at hp
                dsimp only at hp
                rw [splitOn_pyGet_one_err hsubdot] at hp
                cases hp
          · rw [if_neg hdbx] at hp ⊢
            by_cases hdbb : isPre ['d', 'b', 'b'] sub = true
            · rw [if_pos hdbb] at hp ⊢
              cases h5 : pyIntStr (sub.drop 3) with
              | error e => rw [h5] at hp; cases hp
              | ok st =>
                rw [h5] at hp
                dsimp only at hp ⊢
                cases hp
                refine ⟨rfl, ?_, ?_, ?_, ?_, ?_, ?_⟩ <;> simp [haiw]
            · rw [if_neg hdbb] at hp ⊢
              by_cases hdbw : isPre ['d', 'b', 'w'] sub = true
              · rw [if_pos hdbw] at hp ⊢
                cases h5 : pyIntStr (sub.drop 3) with
                | error e => rw [h5] at hp; cases hp
                | ok st =>
                  rw [h5] at hp
                  dsimp only at hp ⊢
                  cases hp
                  refine ⟨rfl, ?_, ?_, ?_, ?_, ?_, ?_⟩ <;> simp [haiw]
              · rw [if_neg hdbw] at hp ⊢
                by_cases hdbd : isPre ['d', 'b', 'd'] sub = true
                · rw [if_pos hdbd] at hp ⊢
                  cases h5 : pyIntStr (sub.drop 3) with
                  | error e => rw [h5] at hp; cases hp
                  | ok st =>
                    rw [h5] at hp
                    dsimp only at hp ⊢
                    cases hp
                    refine ⟨rfl, ?_, ?_, ?_, ?_, ?_, ?_⟩ <;> simp [haiw]
                · rw [if_neg hdbd] at hp ⊢
                  cases hp
                  refine ⟨rfl, ?_, ?_, ?_, ?_, ?_, ?_⟩ <;> simp [haiw]
  · rw [if_neg hdb] at hp
    rw [if_neg hdb]
    cases harea : resolveArea mem with
    | error e => rw [harea] at hp; cases hp
    | ok area =>
      rw [harea] at hp
      dsimp only at hp ⊢
      cases hc1 : pyGet mem 1 with
      | error e => rw [hc1] at hp; cases hp
      | ok c1 =>
        rw [hc1] at hp
        dsimp only at hp ⊢
        obtain ⟨c0, rest, rfl⟩ := pyGet_one hc1
        by_cases hx : c1 = 'x'
        · rw [if_pos hx] at hp ⊢
          subst hx
          have haiw : isPre ['a', 'i', 'w'] (c0 :: 'x' :: rest) = false := by
            simp [isPre, show (('i' : Char) == 'x') = false from by decide]
          rw [if_neg (by rw [haiw]; simp)]
          cases h6 : pyGet (splitOn '.' ((c0 :: 'x' :: rest).drop 2)) 0 with
          | error e => rw [h6] at hp; cases hp
          | ok s0 =>
            rw [h6] at hp
            dsimp only at hp ⊢
            cases h7 : pyIntStr s0 with
            | error e => rw [h7] at hp; cases hp
            | ok st =>
              rw [h7] at hp
              dsimp only at hp ⊢
              cases h8 : pyGet (splitOn '.' (c0 :: 'x' :: rest)) 1 with
              | error e => rw [h8] at hp; cases hp
              | ok b1 =>
                rw [h8] at hp
                dsimp only at hp ⊢
                cases h9 : pyIntStr b1 with
                | error e => rw [h9] at hp; cases hp
                | ok bv =>
                  rw [h9] at hp
                  dsimp only at hp ⊢
                  cases hp
                  refine ⟨rfl, ?_, ?_, ?_, ?_, ?_, ?_⟩ <;> simp [haiw]
        · rw [if_neg hx] at hp ⊢
          by_cases hb : c1 = 'b'
          · rw [if_pos hb] at hp ⊢
            subst hb
            have haiw : isPre ['a', 'i', 'w'] (c0 :: 'b' :: rest) = false := by
              simp [isPre, show (('i' : Char) == 'b') = false from by decide]
            rw [if_neg (by rw [haiw]; simp)]
            cases h5 : pyIntStr ((c0 :: 'b' :: rest).drop 2) with
            | error e => rw [h5] at hp; cases hp
            | ok st =>
              rw [h5] at hp
              dsimp only at hp ⊢
              cases hp
              refine ⟨rfl, ?_, ?_, ?_, ?_, ?_, ?_⟩ <;> simp [haiw]
          · rw [if_neg hb] at hp ⊢
            by_cases hw : c1 = 'w'
            · rw [if_pos hw] at hp ⊢
              subst hw
              have haiw : isPre ['a', 'i', 'w'] (c0 :: 'w' :: rest) = false := by
                simp [isPre, show (('i' : Char) == 'w') = false from by decide]
              rw [if_neg (by rw [haiw]; simp)]
              cases h5 : pyIntStr ((c0 :: 'w' :: rest).drop 2) with
              | error e => rw [h5] at hp; cases hp
              | ok st =>
                rw [h5] at hp
                dsimp only at hp ⊢
                cases hp
                refine ⟨rfl, ?_, ?_, ?_, ?_, ?_, ?_⟩ <;> simp [haiw]
            · rw [if_neg hw] at hp ⊢
              by_cases hd : c1 = 'd'
              · rw [if_pos hd] at hp ⊢
                subst hd
                have haiw : isPre ['a', 'i', 'w'] (c0 :: 'd' :: rest) = false := by
                  simp [isPre, show (('i' : Char) == 'd') = false from by decide]
                rw [if_neg (by rw [haiw]; simp)]
                cases h5 : pyIntStr ((c0 :: 'd' :: rest).drop 2) with
                | error e => rw [h5] at hp; cases hp
                | ok st =>
                  rw [h5] at hp
                  dsimp only at hp ⊢
                  cases hp
                  by_cases hvd : isPre ['v', 'd'] (c0 :: 'd' :: rest) = true
                  · rw [if_pos hvd, if_pos hvd]
                    refine ⟨rfl, ?_, ?_, ?_, ?_, ?_, ?_⟩ <;> simp [haiw]
                  · rw [if_neg hvd, if_neg hvd]
                    refine ⟨rfl, ?_, ?_, ?_, ?_, ?_, ?_⟩ <;> simp [haiw]
              · rw [if_neg hd] at hp ⊢
                have hiw : isPre ['i', 'w'] (c0 :: c1 :: rest) = false := by
                  simp only [isPre, Bool.and_eq_false_iff, beq_eq_false_iff_ne]
                  right
                  left
                  exact fun h => hw h.symm
                have hqw : isPre ['q', 'w'] (c0 :: c1 :: rest) = false := by
                  simp only [isPre, Bool.and_eq_false_iff, beq_eq_false_iff_ne]
                  right
                  left
                  exact fun h => hw h.symm
                have hvw : isPre ['v', 'w'] (c0 :: c1 :: rest) = false := by
                  simp only [isPre, Bool.and_eq_false_iff, beq_eq_false_iff_ne]
                  right
                  left
                  exact fun h => hw h.symm
                have hvd : isPre ['v', 'd'] (c0 :: c1 :: rest) = false := by
                  simp only [isPre, Bool.and_eq_false_iff, beq_eq_false_iff_ne]
                  right
                  left
                  exact fun h => hd h.symm
                by_cases haiw : isPre ['a', 'i', 'w'] (c0 :: c1 :: rest) = true
                · obtain ⟨cs1, hc0, haiw2⟩ := isPre_head haiw
                  cases hc0
                  obtain ⟨cs2, hc1e, _⟩ := isPre_head haiw2
                  cases hc1e
                  have haqw : isPre ['a', 'q', 'w'] ('a' :: 'i' :: rest) = false := by
                    simp [isPre, show (('q' : Char) == 'i') = false from by decide]
                  simp only [haiw, Bool.true_or, eq_self_iff_true, if_true] at hp
                  rw [if_neg (by rw [haqw, hqw, hvw]; simp),
                    if_neg (by rw [hvd]; simp), if_pos haiw]
                  cases h5 : pyIntStr (('a' :: 'i' :: rest).drop 3) with
                  | error e => rw [h5] at hp; cases hp
                  | ok st =>
                    rw [h5] at hp
                    dsimp only at hp
                    cases hp
                    refine ⟨rfl, ?_, ?_, ?_, ?_, ?_, ?_⟩ <;> simp [haiw]
                · rw [Bool.not_eq_true] at haiw
                  by_cases haqw : isPre ['a', 'q', 'w'] (c0 :: c1 :: rest) = true
                  · simp only [haiw, haqw, Bool.false_or, Bool.true_or,
                      eq_self_iff_true, if_true] at hp
                    rw [if_pos (by rw [haqw]; rfl),
                      if_neg (by rw [haiw]; simp)]
                    cases h5 : pyIntStr ((c0 :: c1 :: rest).drop 3) with
                    | error e => rw [h5] at hp; cases hp
                    | ok st =>
                      rw [h5] at hp
                      dsimp only at hp ⊢
                      cases hp
                      refine ⟨rfl, ?_, ?_, ?_, ?_, ?_, ?_⟩ <;> simp [haiw]
                  · rw [Bool.not_eq_true] at haqw
                    rw [if_neg (by rw [haiw, haqw, hiw, hqw, hvw]; simp),
                      if_neg (by rw [hvd]; simp)] at hp
                    rw [if_neg (by rw [haqw, hqw, hvw]; simp),
                      if_neg (by rw [hvd]; simp),
                      if_neg (by rw [haiw]; simp)]
                    cases hp
                    refine ⟨rfl, ?_, ?_, ?_, ?_, ?_, ?_⟩ <;> simp [haiw]

/-! ## Structural inversion of the transaction executor -/

theorem getMemRaw_ok_inv {dev : Dev} {s : List Char} {data : List Nat}
    {tr : List Ev} (h : getMemRaw dev s = (.ok data, tr)) :
    ∃ t p, translate s = .ok t ∧ parseAddr (lower t) = .ok p ∧
      data = readArea dev p.area p.db_number p.start p.length ∧
      tr = [.lockAcq, .readE p.area p.db_number p.start p.length, .lockRel] := by
  unfold getMemRaw at h
  cases ht : translate s with
  | error e => rw [ht] at h; cases h
  | ok t =>
    rw [ht] at h
    dsimp only at h
    cases hp : parseAddr (lower t) with
    | error e => rw [hp] at h; cases h
    | ok p =>
      rw [hp] at h
      dsimp only at h
      rw [Prod.mk.injEq, Except.ok.injEq] at h
      exact ⟨t, p, rfl, hp, h.1.symm, h.2.symm⟩

theorem writeMemR_ok_inv {dev : Dev} {s : List Char} {v : PValue}
    {dev2 : Dev} {rc : Nat} {tr : List Ev}
    (h : writeMemR dev s v = (.ok (dev2, rc), tr)) :
    ∃ t p a dbn st d2,
      translate s = .ok t ∧ parseAddr (lower t) = .ok p ∧
      writeMut (lower t) (readArea dev p.area p.db_number p.start p.length) v
        = .ok (a, dbn, st, d2) ∧
      dev2 = writeArea dev a dbn st d2 ∧ rc = 0 ∧
      tr = [.lockAcq, .readE p.area p.db_number p.start p.length, .lockRel,
        .lockAcq, .writeE a dbn st d2, .sleepE 50, .lockRel] := by
  unfold writeMemR at h
  cases ht : translate s with
  | error e => rw [ht] at h; cases h
  | ok t0 =>
    rw [ht] at h
    dsimp only at h
    rcases hraw : getMemRaw dev (lower t0) with ⟨res, tr1⟩
    rw [hraw] at h
    cases res with
    | error e => dsimp only at h; cases h
    | ok data =>
      dsimp only at h
      obtain ⟨t1, p, ht1, hp, hdata, htr1⟩ := getMemRaw_ok_inv hraw
      have ht10 : t1 = t0 := by
        have h2 := translate_lower_fix ht
        rw [ht1] at h2
        exact (Except.ok.injEq _ _).mp h2
      rw [ht10] at hp
      subst hdata
      subst htr1
      cases hm : writeMut (lower t0)
          (readArea dev p.area p.db_number p.start p.length) v with
      | error e => rw [hm] at h; cases h
      | ok quad =>
        obtain ⟨a, dbn, st, d2⟩ := quad
        rw [hm] at h
        dsimp only at h
        rw [Prod.mk.injEq, Except.ok.injEq, Prod.mk.injEq] at h
        exact ⟨t0, p, a, dbn, st, d2, rfl, hp, hm, h.1.1.symm, h.1.2.symm,
          h.2.symm⟩

theorem getMemR_ok_inv {dev : Dev} {s : List Char} {w : Option PValue}
    {tr : List Ev} (h : getMemR dev s = (.ok w, tr)) :
    ∃ t p, translate s = .ok t ∧ parseAddr (lower t) = .ok p ∧
      decodeVal p.out_type p.bit
        (readArea dev p.area p.db_number p.start p.length) = .ok w ∧
      tr = [.lockAcq, .readE p.area p.db_number p.start p.length, .lockRel] := by
  unfold getMemR at h
  cases ht : translate s with
  | error e => rw [ht] at h; cases h
  | ok t =>
    rw [ht] at h
    dsimp only at h
    cases hp : parseAddr (lower t) with
    | error e => rw [hp] at h; cases h
    | ok p =>
      rw [hp] at h
      dsimp only at h
      rw [Prod.mk.injEq] at h
      exact ⟨t, p, rfl, hp, h.1, h.2.symm⟩

theorem mutSpec_ok_inv {mem : List Char} {p : PMem} {data : List Nat}
    {v : PValue} {a : Area} {dbn st : Int} {d2 : List Nat}
    (h : mutSpec mem p data v = .ok (a, dbn, st, d2)) :
    a = p.area ∧ dbn = p.db_number ∧
      (st = p.start ∨ isPre ['a', 'i', 'w'] mem = true) := by
  unfold mutSpec at h
  by_cases haiw : isPre ['a', 'i', 'w'] mem = true
  · rw [if_pos haiw] at h
    cases h
    exact ⟨rfl, rfl, Or.inr haiw⟩
  · rw [if_neg haiw] at h
    cases hot : p.out_type with
    | none => rw [hot] at h; cases h; exact ⟨rfl, rfl, Or.inl rfl⟩
    | some ot =>
      rw [hot] at h
      cases ot with
      | BOOL =>
        cases hn : pyInt v with
        | error e => rw [hn] at h; cases h
        | ok n =>
          rw [hn] at h
          dsimp only at h
          cases hsb : set_bool data 0 p.bit n with
          | error e => rw [hsb] at h; cases h
          | ok dd =>
            rw [hsb] at h
            dsimp only at h
            cases h
            exact ⟨rfl, rfl, Or.inl rfl⟩
      | INT =>
        cases hs : set_int data 0 v with
        | error e => rw [hs] at h; cases h
        | ok dd =>
          rw [hs] at h
          dsimp only at h
          cases h
          exact ⟨rfl, rfl, Or.inl rfl⟩
      | REAL =>
        cases hs : set_real data 0 v with
        | error e => rw [hs] at h; cases h
        | ok dd =>
          rw [hs] at h
          dsimp only at h
          cases h
          exact ⟨rfl, rfl, Or.inl rfl⟩
      | DWORD =>
        cases hs : set_dword data 0 v with
        | error e => rw [hs] at h; cases h
        | ok dd =>
          rw [hs] at h
          dsimp only at h
          cases h
          exact ⟨rfl, rfl, Or.inl rfl⟩

theorem mutSpec_bool_inv {mem : List Char} {p : PMem} {data : List Nat}
    {v : PValue} {a : Area} {dbn st : Int} {d2 : List Nat}
    (hb : p.out_type = some .BOOL)
    (haiw : isPre ['a', 'i', 'w'] mem = false)
    (h : mutSpec mem p data v = .ok (a, dbn, st, d2)) :
    a = p.area ∧ dbn = p.db_number ∧ st = p.start ∧
      ∃ n, pyInt v = .ok n ∧ set_bool data 0 p.bit n = .ok d2 := by
  unfold mutSpec at h
  rw [if_neg (by rw [haiw]; simp), hb] at h
  cases hn : pyInt v with
  | error e => rw [hn] at h; cases h
  | ok n =>
    rw [hn] at h
    dsimp only at h
    cases hsb : set_bool data 0 p.bit n with
    | error e => rw [hsb] at h; cases h
    | ok dd =>
      rw [hsb] at h
      dsimp only at h
      cases h
      exact ⟨rfl, rfl, rfl, n, rfl, hsb⟩

/-! ## Bit-level frame lemmas -/

theorem lt_pow_of_testBit_false {r k : Nat} (hr : r < 2 ^ (k + 1))
    (h : r.testBit k = false) : r < 2 ^ k := by
  rw [Nat.testBit_to_div_mod, decide_eq_false_iff_not] at h
  have h2 : r / 2 ^ k < 2 := Nat.div_lt_of_lt_mul (by rw [← pow_succ]; exact hr)
  have h3 : r / 2 ^ k = 0 := by
    generalize r / 2 ^ k = t at h h2
    omega
  have h4 := Nat.div_add_mod r (2 ^ k)
  have h5 : r % 2 ^ k < 2 ^ k := Nat.mod_lt _ (by positivity)
  rw [h3, Nat.mul_zero, Nat.zero_add] at h4
  omega

theorem ge_pow_of_testBit_true {r k : Nat} (h : r.testBit k = true) :
    2 ^ k ≤ r := by
  by_contra hc
  push_neg at hc
  rw [Nat.testBit_lt_two_pow hc] at h
  cases h

/-- Adding `2^k` to a number whose bit `k` is clear leaves every other bit
unchanged. -/
theorem testBit_add_two_pow_ne (b k j : Nat) (hb : b.testBit k = false)
    (hne : j ≠ k) : (b + 2 ^ k).testBit j = b.testBit j := by
  have hrlt : b % 2 ^ (k + 1) < 2 ^ (k + 1) := Nat.mod_lt _ (by positivity)
  have hb2 : (b % 2 ^ (k + 1)).testBit k = false := by
    rw [Nat.testBit_mod_two_pow]
    simp [hb]
  have hlt : b % 2 ^ (k + 1) < 2 ^ k := lt_pow_of_testBit_false hrlt hb2
  obtain ⟨q, r, hqr, hr⟩ :
      ∃ q r, b = 2 ^ (k + 1) * q + r ∧ r < 2 ^ k :=
    ⟨b / 2 ^ (k + 1), b % 2 ^ (k + 1), (Nat.div_add_mod b (2 ^ (k + 1))).symm,
      hlt⟩
  subst hqr
  have hsum : 2 ^ (k + 1) * q + r + 2 ^ k = 2 ^ (k + 1) * q + (r + 2 ^ k) := by
    ring
  have hr2 : r + 2 ^ k < 2 ^ (k + 1) := by
    rw [pow_succ]
    omega
  have hr3 : r < 2 ^ (k + 1) := by
    rw [pow_succ]
    omega
  rw [hsum, Nat.testBit_mul_pow_two_add q hr2 j,
    Nat.testBit_mul_pow_two_add q hr3 j]
  by_cases hj : j < k + 1
  · rw [if_pos hj, if_pos hj]
    have hjk : j < k := by omega
    have hre : r + 2 ^ k = 2 ^ k * 1 + r := by ring
    rw [hre, Nat.testBit_mul_pow_two_add 1 hr j, if_pos hjk]
  · rw [if_neg hj, if_neg hj]

/-- Subtracting `2^k` from a number whose bit `k` is set leaves every other
bit unchanged. -/
theorem testBit_sub_two_pow_ne (b k j : Nat) (hb : b.testBit k = true)
    (hne : j ≠ k) : (b - 2 ^ k).testBit j = b.testBit j := by
  have hrlt : b % 2 ^ (k + 1) < 2 ^ (k + 1) := Nat.mod_lt _ (by positivity)
  have hb2 : (b % 2 ^ (k + 1)).testBit k = true := by
    rw [Nat.testBit_mod_two_pow]
    simp [hb]
  have hge : 2 ^ k ≤ b % 2 ^ (k + 1) := ge_pow_of_testBit_true hb2
  obtain ⟨q, r, hqr, hr1, hr2⟩ :
      ∃ q r, b = 2 ^ (k + 1) * q + r ∧ 2 ^ k ≤ r ∧ r < 2 ^ (k + 1) :=
    ⟨b / 2 ^ (k + 1), b % 2 ^ (k + 1), (Nat.div_add_mod b (2 ^ (k + 1))).symm,
      hge, hrlt⟩
  subst hqr
  have hsub : 2 ^ (k + 1) * q + r - 2 ^ k = 2 ^ (k + 1) * q + (r - 2 ^ k) := by
    omega
  have hlt : r - 2 ^ k < 2 ^ (k + 1) := by omega
  have hltk : r - 2 ^ k < 2 ^ k := by
    rw [pow_succ] at hr2
    omega
  rw [hsub, Nat.testBit_mul_pow_two_add q hlt j,
    Nat.testBit_mul_pow_two_add q hr2 j]
  by_cases hj : j < k + 1
  · rw [if_pos hj, if_pos hj]
    have hjk : j < k := by omega
    have hre : r = 2 ^ k * 1 + (r - 2 ^ k) := by omega
    rw [hre, Nat.testBit_mul_pow_two_add 1 hltk j, if_pos hjk]
    congr 1
    omega
  · rw [if_neg hj, if_neg hj]

theorem getD_set_ne_bits (l : List Nat) (i j a d : Nat) (h : i ≠ j) :
    (l.set i a).getD j d = l.getD j d := by
  rw [List.getD_eq_getElem?_getD, List.getD_eq_getElem?_getD,
    List.getElem?_set_ne h]

theorem getD_set_self_bits (l : List Nat) (a d : Nat) (h : 0 < l.length) :
    (l.set 0 a).getD 0 d = a := by
  rw [List.getD_eq_getElem?_getD, List.getElem?_set_self h]
  rfl

/-- Frame property of `snap7.util.set_bool`: a successful call leaves the
buffer length unchanged and every bit other than (byte 0, the target bit)
exactly as it was. -/
theorem set_bool_frame {buf : List Nat} {bit v : Int} {d2 : List Nat}
    (h : set_bool buf 0 bit v = .ok d2) :
    d2.length = buf.length ∧ ∀ j k, ¬(j = 0 ∧ k = bit.toNat) →
      (d2.getD j 0).testBit k = (buf.getD j 0).testBit k := by
  unfold set_bool at h
  by_cases hv : v ≠ 0 ∧ v ≠ 1
  · rw [if_pos hv] at h; cases h
  · rw [if_neg hv] at h
    cases hgb : get_bool buf 0 bit with
    | error e => rw [hgb] at h; cases h
    | ok cur =>
      rw [hgb] at h
      dsimp only at h
      by_cases hcur : cur = (v == 1)
      · rw [if_pos hcur] at h
        cases h
        exact ⟨rfl, fun j k _ => rfl⟩
      · rw [if_neg hcur] at h
        cases hb0 : pyGet buf 0 with
        | error e => rw [hb0] at h; cases h
        | ok b =>
          rw [hb0] at h
          dsimp only at h
          have hbge : 0 ≤ bit := by
            by_contra hbneg
            push_neg at hbneg
            unfold get_bool at hgb
            rw [if_pos hbneg] at hgb
            cases hgb
          have hcur2 : cur = b.testBit bit.toNat := by
            unfold get_bool at hgb
            rw [if_neg (by omega)] at hgb
            rw [hb0] at hgb
            dsimp only at hgb
            have hcur3 := (Except.ok.injEq _ _).mp hgb
            rw [← hcur3, Nat.and_two_pow]
            cases hbit : b.testBit bit.toNat <;> simp [hbit]
            positivity
          have hlen : 0 < buf.length := by
            unfold pyGet at hb0
            cases hg : buf.get? 0 with
            | none => rw [hg] at hb0; cases hb0
            | some x =>
              obtain ⟨hlt, -⟩ := List.get?_eq_some.mp hg
              omega
          have hbufget : buf.getD 0 0 = b := by
            unfold pyGet at hb0
            cases hg : buf.get? 0 with
            | none => rw [hg] at hb0; cases hb0
            | some x =>
              rw [hg] at hb0
              cases hb0
              rw [List.getD_eq_getElem?_getD, ← List.get?_eq_getElem?, hg]
              rfl
          have hc2 : ((2 : Int) ^ bit.toNat) = ((2 ^ bit.toNat : Nat) : Int) := by
            push_cast
            ring
          by_cases h1 : v = 1
          · subst h1
            rw [if_pos (show ((1 : Int) == 1) = true from rfl)] at h
            split at h
            · cases h
            · next hrange =>
              cases h
              push_neg at hrange
              refine ⟨List.length_set _ _ _, ?_⟩
              intro j k hjk
              by_cases hj : j = 0
              · subst hj
                have hk : k ≠ bit.toNat := fun hke => hjk ⟨rfl, hke⟩
                rw [getD_set_self_bits _ _ _ hlen, hbufget]
                have hcurf : cur = false := by
                  cases hcv : cur
                  · rfl
                  · exact absurd (by rw [hcv]; rfl) hcur
                rw [hcurf] at hcur2
                have hnb : ((b : Int) + 2 ^ bit.toNat).toNat =
                    b + 2 ^ bit.toNat := by
                  rw [hc2]
                  omega
                rw [hnb]
                exact testBit_add_two_pow_ne b bit.toNat k hcur2.symm hk
              · rw [getD_set_ne_bits _ _ _ _ _ (fun he => hj he.symm)]
          · have h0 : v = 0 := by
              rcases not_and_or.mp hv with hv1 | hv1 <;> push_neg at hv1
              · exact hv1
              · exact absurd hv1 h1
            subst h0
            rw [if_neg (by simp : ¬ (((0 : Int) == 1) = true))] at h
            split at h
            · cases h
            · next hrange =>
              cases h
              push_neg at hrange
              refine ⟨List.length_set _ _ _, ?_⟩
              intro j k hjk
              by_cases hj : j = 0
              · subst hj
                have hk : k ≠ bit.toNat := fun hke => hjk ⟨rfl, hke⟩
                rw [getD_set_self_bits _ _ _ hlen, hbufget]
                have hcurt : cur = true := by
                  cases hcv : cur
                  · exact absurd (by rw [hcv]; rfl) hcur
                  · rfl
                rw [hcurt] at hcur2
                have hble : 2 ^ bit.toNat ≤ b := ge_pow_of_testBit_true hcur2.symm
                have hnb : ((b : Int) - 2 ^ bit.toNat).toNat =
                    b - 2 ^ bit.toNat := by
                  rw [hc2]
                  omega
                rw [hnb]
                exact testBit_sub_two_pow_ne b bit.toNat k hcur2.symm hk
              · rw [getD_set_ne_bits _ _ _ _ _ (fun he => hj he.symm)]

/-! ## Total trace-shape lemmas -/

theorem getMemRaw_total (dev : Dev) (s : List Char) :
    (∃ e, getMemRaw dev s = (.error e, [])) ∨
    (∃ data a dbn st len, getMemRaw dev s = (.ok data,
      [.lockAcq, .readE a dbn st len, .lockRel])) := by
  unfold getMemRaw
  cases translate s with
  | error e => exact Or.inl ⟨e, rfl⟩
  | ok t =>
    dsimp only
    cases parseAddr (lower t) with
    | error e => exact Or.inl ⟨e, rfl⟩
    | ok p => exact Or.inr ⟨_, p.area, p.db_number, p.start, p.length, rfl⟩

theorem getMemR_total (dev : Dev) (s : List Char) :
    (∃ e, getMemR dev s = (.error e, [])) ∨
    (∃ r a dbn st len, getMemR dev s = (r,
      [.lockAcq, .readE a dbn st len, .lockRel])) := by
  unfold getMemR
  cases translate s with
  | error e => exact Or.inl ⟨e, rfl⟩
  | ok t =>
    dsimp only
    cases parseAddr (lower t) with
    | error e => exact Or.inl ⟨e, rfl⟩
    | ok p => exact Or.inr ⟨_, p.area, p.db_number, p.start, p.length, rfl⟩

theorem writeMemR_total (dev : Dev) (s : List Char) (v : PValue) :
    (∃ e, writeMemR dev s v = (.error e, [])) ∨
    (∃ e a dbn st len, writeMemR dev s v = (.error e,
      [.lockAcq, .readE a dbn st len, .lockRel])) ∨
    (∃ dv a dbn st len a2 dbn2 st2 d2, writeMemR dev s v = (.ok (dv, 0),
      [.lockAcq, .readE a dbn st len, .lockRel,
       .lockAcq, .writeE a2 dbn2 st2 d2, .sleepE 50, .lockRel])) := by
  unfold writeMemR
  cases translate s with
  | error e => exact Or.inl ⟨e, rfl⟩
  | ok t0 =>
    dsimp only
    rcases getMemRaw_total dev (lower t0) with ⟨e, heq⟩ |
      ⟨data, a, dbn, st, len, heq⟩
    · rw [heq]
      exact Or.inl ⟨e, rfl⟩
    · rw [heq]
      dsimp only
      cases writeMut (lower t0) data v with
      | error e => exact Or.inr (Or.inl ⟨e, a, dbn, st, len, rfl⟩)
      | ok quad =>
        obtain ⟨a2, dbn2, st2, d2⟩ := quad
        exact Or.inr (Or.inr ⟨_, a, dbn, st, len, a2, dbn2, st2, d2, rfl⟩)

/-! ## Typed inversions of the mutation block -/

theorem mutSpec_int_inv {mem : List Char} {p : PMem} {data : List Nat}
    {v : PValue} {a : Area} {dbn st : Int} {d2 : List Nat}
    (hb : p.out_type = some .INT)
    (haiw : isPre ['a', 'i', 'w'] mem = false)
    (h : mutSpec mem p data v = .ok (a, dbn, st, d2)) :
    a = p.area ∧ dbn = p.db_number ∧ st = p.start ∧
      set_int data 0 v = .ok d2 := by
  unfold mutSpec at h
  rw [if_neg (by rw [haiw]; simp), hb] at h
  cases hs : set_int data 0 v with
  | error e => rw [hs] at h; cases h
  | ok dd =>
    rw [hs] at h
    dsimp only at h
    cases h
    exact ⟨rfl, rfl, rfl, rfl⟩

theorem mutSpec_real_inv {mem : List Char} {p : PMem} {data : List Nat}
    {v : PValue} {a : Area} {dbn st : Int} {d2 : List Nat}
    (hb : p.out_type = some .REAL)
    (haiw : isPre ['a', 'i', 'w'] mem = false)
    (h : mutSpec mem p data v = .ok (a, dbn, st, d2)) :
    a = p.area ∧ dbn = p.db_number ∧ st = p.start ∧
      set_real data 0 v = .ok d2 := by
  unfold mutSpec at h
  rw [if_neg (by rw [haiw]; simp), hb] at h
  cases hs : set_real data 0 v with
  | error e => rw [hs] at h; cases h
  | ok dd =>
    rw [hs] at h
    dsimp only at h
    cases h
    exact ⟨rfl, rfl, rfl, rfl⟩

theorem mutSpec_dword_inv {mem : List Char} {p : PMem} {data : List Nat}
    {v : PValue} {a : Area} {dbn st : Int} {d2 : List Nat}
    (hb : p.out_type = some .DWORD)
    (haiw : isPre ['a', 'i', 'w'] mem = false)
    (h : mutSpec mem p data v = .ok (a, dbn, st, d2)) :
    a = p.area ∧ dbn = p.db_number ∧ st = p.start ∧
      set_dword data 0 v = .ok d2 := by
  unfold mutSpec at h
  rw [if_neg (by rw [haiw]; simp), hb] at h
  cases hs : set_dword data 0 v with
  | error e => rw [hs] at h; cases h
  | ok dd =>
    rw [hs] at h
    dsimp only at h
    cases h
    exact ⟨rfl, rfl, rfl, rfl⟩

/-- Inversion of `set_int` at index 0 on a buffer of at most two bytes:
success forces the int16 range and the buffer becomes exactly the two
big-endian bytes of the value. -/
theorem set_int_ok_inv {buf : List Nat} {m : Int} {d2 : List Nat}
    (hbuf : buf.drop 2 = [])
    (h : set_int buf 0 (.pint m) = .ok d2) :
    -32768 ≤ m ∧ m ≤ 32767 ∧
      d2 = [(m % 65536).toNat / 256, (m % 65536).toNat % 256] := by
  unfold set_int at h
  dsimp only [pyInt] at h
  split at h
  · cases h
  · next hrange =>
    push_neg at hrange
    have h22 : (0 + 2) = 2 := rfl
    rw [h22, List.take_zero, hbuf] at h
    refine ⟨by omega, by omega, ?_⟩
    simpa using ((Except.ok.injEq _ _).mp h).symm

/-! ## Error-kind inversions: which exception each primitive can raise -/

theorem pyGet_err_inv {α : Type} {l : List α} {i : Nat} {e : PyErr}
    (h : pyGet l i = .error e) : e = .indexErr := by
  unfold pyGet at h
  cases hg : l.get? i with
  | none =>
    rw [hg] at h
    dsimp only at h
    exact ((Except.error.injEq _ _).mp h).symm
  | some x =>
    rw [hg] at h
    dsimp only at h
    cases h

theorem pyIntStr_err_inv {s : List Char} {e : PyErr}
    (h : pyIntStr s = .error e) : e = .valueErr := by
  unfold pyIntStr at h
  repeat' split at h
  all_goals first
    | exact ((Except.error.injEq _ _).mp h).symm
    | cases h

theorem translate_err_inv {s : List Char} {e : PyErr}
    (h : translate s = .error e) : e = .valueErr := by
  unfold translate translateU at h
  repeat' split at h
  all_goals first
    | exact ((Except.error.injEq _ _).mp h).symm
    | cases h

theorem float32TruncToInt_err_inv {bits : Nat} {e : PyErr}
    (h : float32TruncToInt bits = .error e) : e = .overflowErr := by
  unfold float32TruncToInt at h
  try dsimp only at h
  repeat' split at h
  all_goals first
    | exact ((Except.error.injEq _ _).mp h).symm
    | cases h

theorem intToF32_err_inv {n : Int} {e : PyErr}
    (h : intToF32 n = .error e) : e = .overflowErr := by
  unfold intToF32 at h
  try dsimp only at h
  repeat' split at h
  all_goals first
    | exact ((Except.error.injEq _ _).mp h).symm
    | cases h

theorem pyInt_err_inv {v : PValue} {e : PyErr}
    (h : pyInt v = .error e) : e = .overflowErr := by
  cases v with
  | pbool b => cases h
  | pint n => cases h
  | pdword n => cases h
  | preal bits => exact float32TruncToInt_err_inv h

theorem pyFloat32Bits_err_inv {v : PValue} {e : PyErr}
    (h : pyFloat32Bits v = .error e) : e = .overflowErr := by
  cases v with
  | pbool b => cases h
  | preal bits => cases h
  | pint n => exact intToF32_err_inv h
  | pdword n => exact intToF32_err_inv h

theorem get_int_err_inv {buf : List Nat} {i : Nat} {e : PyErr}
    (h : get_int buf i = .error e) : e = .indexErr := by
  unfold get_int at h
  repeat' split at h
  all_goals first
    | exact ((Except.error.injEq _ _).mp h).symm
    | cases h

theorem get_real_err_inv {buf : List Nat} {i : Nat} {e : PyErr}
    (h : get_real buf i = .error e) : e = .structErr := by
  unfold get_real at h
  repeat' split at h
  all_goals first
    | exact ((Except.error.injEq _ _).mp h).symm
    | cases h

theorem get_dword_err_inv {buf : List Nat} {i : Nat} {e : PyErr}
    (h : get_dword buf i = .error e) : e = .structErr := by
  unfold get_dword at h
  repeat' split at h
  all_goals first
    | exact ((Except.error.injEq _ _).mp h).symm
    | cases h

theorem get_bool_err_inv {buf : List Nat} {i : Nat} {b : Int} {e : PyErr}
    (h : get_bool buf i b = .error e) : e = .valueErr ∨ e = .indexErr := by
  unfold get_bool at h
  by_cases hb : b < 0
  · rw [if_pos hb] at h
    exact Or.inl ((Except.error.injEq _ _).mp h).symm
  · rw [if_neg hb] at h
    dsimp only at h
    cases hg : pyGet buf i with
    | error e0 =>
      rw [hg] at h
      dsimp only at h
      have h1 : e0 = e := (Except.error.injEq _ _).mp h
      exact Or.inr (h1 ▸ pyGet_err_inv hg)
    | ok bb =>
      rw [hg] at h
      dsimp only at h
      cases h

theorem set_bool_err_inv {buf : List Nat} {i : Nat} {b v : Int} {e : PyErr}
    (h : set_bool buf i b v = .error e) : e ≠ .areaErr := by
  unfold set_bool at h
  by_cases hv : v ≠ 0 ∧ v ≠ 1
  · rw [if_pos hv] at h
    have h1 : PyErr.typeErr = e := (Except.error.injEq _ _).mp h
    rw [← h1]
    simp
  · rw [if_neg hv] at h
    cases hg : get_bool buf i b with
    | error e0 =>
      rw [hg] at h
      dsimp only at h
      have h1 : e0 = e := (Except.error.injEq _ _).mp h
      rcases get_bool_err_inv hg with h2 | h2 <;> rw [← h1, h2] <;> simp
    | ok cur =>
      rw [hg] at h
      dsimp only at h
      by_cases hc : cur = (v == 1)
      · rw [if_pos hc] at h
        cases h
      · rw [if_neg hc] at h
        cases hp : pyGet buf i with
        | error e0 =>
          rw [hp] at h
          dsimp only at h
          have h1 : e0 = e := (Except.error.injEq _ _).mp h
          rw [← h1, pyGet_err_inv hp]
          simp
        | ok bb =>
          rw [hp] at h
          dsimp only at h
          split at h <;> split at h
          all_goals first
            | (have h1 : PyErr.valueErr = e := (Except.error.injEq _ _).mp h
               rw [← h1]
               simp)
            | cases h

theorem set_int_err_inv {buf : List Nat} {i : Nat} {v : PValue} {e : PyErr}
    (h : set_int buf i v = .error e) : e ≠ .areaErr := by
  unfold set_int at h
  cases hn : pyInt v with
  | error e0 =>
    rw [hn] at h
    dsimp only at h
    have h1 : e0 = e := (Except.error.injEq _ _).mp h
    rw [← h1, pyInt_err_inv hn]
    simp
  | ok n =>
    rw [hn] at h
    dsimp only at h
    split at h
    · have h1 : PyErr.structErr = e := (Except.error.injEq _ _).mp h
      rw [← h1]
      simp
    · cases h

theorem setItems_err_inv : ∀ (bytes buf : List Nat) (idx : Nat) (e : PyErr),
    setItems buf idx bytes = .error e → e ≠ .areaErr := by
  intro bytes
  induction bytes with
  | nil =>
    intro buf idx e h
    cases h
  | cons b rest ih =>
    intro buf idx e h
    rw [setItems] at h
    split at h
    · have h1 : PyErr.valueErr = e := (Except.error.injEq _ _).mp h
      rw [← h1]
      simp
    · split at h
      · exact ih _ _ _ h
      · have h1 : PyErr.indexErr = e := (Except.error.injEq _ _).mp h
        rw [← h1]
        simp

theorem set_real_err_inv {buf : List Nat} {i : Nat} {v : PValue} {e : PyErr}
    (h : set_real buf i v = .error e) : e ≠ .areaErr := by
  unfold set_real at h
  cases hn : pyFloat32Bits v with
  | error e0 =>
    rw [hn] at h
    dsimp only at h
    have h1 : e0 = e := (Except.error.injEq _ _).mp h
    rw [← h1, pyFloat32Bits_err_inv hn]
    simp
  | ok bits =>
    rw [hn] at h
    dsimp only at h
    exact setItems_err_inv _ _ _ _ h

theorem set_dword_err_inv {buf : List Nat} {i : Nat} {v : PValue} {e : PyErr}
    (h : set_dword buf i v = .error e) : e ≠ .areaErr := by
  unfold set_dword at h
  cases hn : pyInt v with
  | error e0 =>
    rw [hn] at h
    dsimp only at h
    have h1 : e0 = e := (Except.error.injEq _ _).mp h
    rw [← h1, pyInt_err_inv hn]
    simp
  | ok n =>
    rw [hn] at h
    dsimp only at h
    split at h
    · have h1 : PyErr.structErr = e := (Except.error.injEq _ _).mp h
      rw [← h1]
      simp
    · exact setItems_err_inv _ _ _ _ h

theorem decodeVal_no_areaErr (ot : Option OutputType) (bit : Int)
    (data : List Nat) : decodeVal ot bit data ≠ .error .areaErr := by
  intro h
  cases ot with
  | none => cases h
  | some t =>
    cases t with
    | BOOL =>
      simp only [decodeVal] at h
      cases hg : get_bool data 0 bit with
      | error e0 =>
        rw [hg] at h
        dsimp only at h
        have h1 : e0 = .areaErr := (Except.error.injEq _ _).mp h
        rcases get_bool_err_inv hg with h2 | h2 <;> rw [h1] at h2 <;> cases h2
      | ok b0 =>
        rw [hg] at h
        dsimp only at h
        cases h
    | INT =>
      simp only [decodeVal] at h
      cases hg : get_int data 0 with
      | error e0 =>
        rw [hg] at h
        dsimp only at h
        have h1 : e0 = .areaErr := (Except.error.injEq _ _).mp h
        have h2 := get_int_err_inv hg
        rw [h1] at h2
        cases h2
      | ok b0 =>
        rw [hg] at h
        dsimp only at h
        cases h
    | REAL =>
      simp only [decodeVal] at h
      cases hg : get_real data 0 with
      | error e0 =>
        rw [hg] at h
        dsimp only at h
        have h1 : e0 = .areaErr := (Except.error.injEq _ _).mp h
        have h2 := get_real_err_inv hg
        rw [h1] at h2
        cases h2
      | ok b0 =>
        rw [hg] at h
        dsimp only at h
        cases h
    | DWORD =>
      simp only [decodeVal] at h
      cases hg : get_dword data 0 with
      | error e0 =>
        rw [hg] at h
        dsimp only at h
        have h1 : e0 = .areaErr := (Except.error.injEq _ _).mp h
        have h2 := get_dword_err_inv hg
        rw [h1] at h2
        cases h2
      | ok b0 =>
        rw [hg] at h
        dsimp only at h
        cases h

theorem mutSpec_no_areaErr (mem : List Char) (p : PMem) (data : List Nat)
    (v : PValue) : mutSpec mem p data v ≠ .error .areaErr := by
  intro h
  unfold mutSpec at h
  by_cases haiw : isPre ['a', 'i', 'w'] mem = true
  · rw [if_pos haiw] at h
    cases h
  · rw [if_neg haiw] at h
    cases hot : p.out_type with
    | none =>
      rw [hot] at h
      cases h
    | some t =>
      rw [hot] at h
      cases t with
      | BOOL =>
        cases hn : pyInt v with
        | error e0 =>
          rw [hn] at h
          dsimp only at h
          have h1 : e0 = .areaErr := (Except.error.injEq _ _).mp h
          have h2 := pyInt_err_inv hn
          rw [h1] at h2
          cases h2
        | ok n =>
          rw [hn] at h
          dsimp only at h
          cases hs : set_bool data 0 p.bit n with
          | error e0 =>
            rw [hs] at h
            dsimp only at h
            exact set_bool_err_inv hs ((Except.error.injEq _ _).mp h)
          | ok d2 =>
            rw [hs] at h
            dsimp only at h
            cases h
      | INT =>
        cases hs : set_int data 0 v with
        | error e0 =>
          rw [hs] at h
          dsimp only at h
          exact set_int_err_inv hs ((Except.error.injEq _ _).mp h)
        | ok d2 =>
          rw [hs] at h
          dsimp only at h
          cases h
      | REAL =>
        cases hs : set_real data 0 v with
        | error e0 =>
          rw [hs] at h
          dsimp only at h
          exact set_real_err_inv hs ((Except.error.injEq _ _).mp h)
        | ok d2 =>
          rw [hs] at h
          dsimp only at h
          cases h
      | DWORD =>
        cases hs : set_dword data 0 v with
        | error e0 =>
          rw [hs] at h
          dsimp only at h
          exact set_dword_err_inv hs ((Except.error.injEq _ _).mp h)
        | ok d2 =>
          rw [hs] at h
          dsimp only at h
          cases h

/-- The parser raises the classification error only out of
`_resolve_area`: a `parseAddr` result of `areaErr` pins the failure on the
area dispatch (every other sub-call raises `IndexError` or a different
`ValueError` site, and the `db` branch never classifies). -/
theorem parseAddr_areaErr_inv {mem : List Char}
    (h : parseAddr mem = .error .areaErr) :
    resolveArea mem = .error .areaErr := by
  unfold parseAddr at h
  split at h
  · exfalso
    repeat' split at h
    all_goals try cases h
    all_goals
      (rename_i heq
       first
         | exact absurd (pyGet_err_inv heq) (by simp)
         | exact absurd (pyIntStr_err_inv heq) (by simp))
  · repeat' split at h
    all_goals try cases h
    all_goals
      (rename_i heq
       first
         | exact heq
         | exact absurd (pyGet_err_inv heq) (by simp)
         | exact absurd (pyIntStr_err_inv heq) (by simp))

theorem getMemRaw_areaErr_inv {dev : Dev} {m : List Char} {tr : List Ev}
    (h : getMemRaw dev m = (.error .areaErr, tr)) :
    tr = [] ∧ ∃ t, translate m = .ok t ∧
      parseAddr (lower t) = .error .areaErr := by
  unfold getMemRaw at h
  cases ht : translate m with
  | error e =>
    rw [ht] at h
    dsimp only at h
    injection h with h1 h2
    have h3 : e = .areaErr := (Except.error.injEq _ _).mp h1
    rw [translate_err_inv ht] at h3
    cases h3
  | ok t =>
    rw [ht] at h
    dsimp only at h
    cases hp : parseAddr (lower t) with
    | error e =>
      rw [hp] at h
      dsimp only at h
      injection h with h1 h2
      have h3 : e = .areaErr := (Except.error.injEq _ _).mp h1
      subst h3
      exact ⟨h2.symm, t, rfl, hp⟩
    | ok p =>
      rw [hp] at h
      dsimp only at h
      injection h with h1 h2
      cases h1

/-- The fall-through classification: a non-`db` address of length ≥ 2
whose area resolves but whose second character and leading letters match
no sub-type selector keeps all the defaults
(`start = 0`, `length = 1`, `out_type = None`). -/
theorem parseAddr_fall {mem : List Char} {area : Area} {c1 : Char}
    (hdb : isPre ['d', 'b'] mem = false)
    (hra : resolveArea mem = .ok area)
    (h1 : pyGet mem 1 = .ok c1)
    (hx : ¬c1 = 'x') (hb : ¬c1 = 'b') (hw : ¬c1 = 'w') (hd : ¬c1 = 'd')
    (hw5 : (isPre ['a', 'i', 'w'] mem || isPre ['a', 'q', 'w'] mem ||
      isPre ['i', 'w'] mem || isPre ['q', 'w'] mem ||
      isPre ['v', 'w'] mem) = false)
    (hvd : isPre ['v', 'd'] mem = false) :
    parseAddr mem = .ok ⟨area, 0, 0, 0, 1, none⟩ := by
  unfold parseAddr
  rw [if_neg (by rw [hdb]; simp), hra]
  dsimp only
  rw [h1]
  dsimp only
  rw [if_neg hx, if_neg hb, if_neg hw, if_neg hd,
    if_neg (by rw [hw5]; simp), if_neg (by rw [hvd]; simp)]

/-- A one-letter address whose area resolves raises `IndexError` at
`mem[1]` before any sub-type branch. -/
theorem parseAddr_short {mem : List Char} {area : Area}
    (hdb : isPre ['d', 'b'] mem = false)
    (hra : resolveArea mem = .ok area)
    (h1 : pyGet mem 1 = .error .indexErr) :
    parseAddr mem = .error .indexErr := by
  unfold parseAddr
  rw [if_neg (by rw [hdb]; simp), hra]
  dsimp only
  rw [h1]

/-! ## Claim theorems -/

/-- Claim C8: alias translation is idempotent — composing
`_translate_alias` with itself (in exception semantics, `Except.bind`)
equals a single translation: a raised `ValueError` propagates, and every
successfully translated address is a fixed point of translation. -/
theorem C8_thm : ∀ s : List Char, (translate s).bind translate = translate s := by
  intro s
  cases h : translate s with
  | error e => rfl
  | ok t => exact translate_fix h

/-- Claim C3 (code bug): every `DB<n>.DBX<b>.<bit>` address raises
`IndexError` in both `getMem` and `writeMem`, with no transport call:
line 129 computes `bit = int(sub.split(".")[1])` where `sub` is the second
dot-separated token (`"dbx0"`), which contains no dot, so index `[1]` is
out of range.  Evaluated here at `DB1.DBX0.0`. -/
theorem C3_thm :
    getMemR dev0 "DB1.DBX0.0".data = (.error .indexErr, []) ∧
    writeMemR dev0 "DB1.DBX0.0".data (.pbool true) = (.error .indexErr, []) :=
  ⟨rfl, rfl⟩

/-- Claim C9 (code bug): at `DB1.DBB0` the code does issue the claimed
1-byte read, but then `get_int` (a 16-bit decoder) raises `IndexError` on
the 1-byte buffer instead of returning the byte as an integer; and
`writeMem` of 5 succeeds while growing the buffer to the two bytes
`[0, 5]` via `set_int`'s slice assignment, writing 2 bytes back. -/
theorem C9_thm :
    getMemR dev0 "DB1.DBB0".data =
      (.error .indexErr, [.lockAcq, .readE .DB 1 0 1, .lockRel]) ∧
    (writeMemR dev0 "DB1.DBB0".data (.pint 5)).2 =
      [.lockAcq, .readE .DB 1 0 1, .lockRel,
        .lockAcq, .writeE .DB 1 0 [0, 5], .sleepE 50, .lockRel] ∧
    isOkE (writeMemR dev0 "DB1.DBB0".data (.pint 5)).1 = true :=
  ⟨rfl, rfl, rfl⟩

/-- Claim C2, counterexample: `"M100"` matches no supported pattern (its
leading `M` resolves the Marker area but no sub-type selector fires), yet
`getMem` raises nothing — it issues a transport read of 1 byte at offset 0
and returns `None` — and `writeMem` additionally issues a transport write
of the unmodified buffer. -/
theorem C2_cx :
    getMemR dev0 "M100".data =
      (.ok none, [.lockAcq, .readE .MK 0 0 1, .lockRel]) ∧
    (writeMemR dev0 "M100".data (.pint 7)).2 =
      [.lockAcq, .readE .MK 0 0 1, .lockRel,
        .lockAcq, .writeE .MK 0 0 [0], .sleepE 50, .lockRel] :=
  ⟨rfl, rfl⟩

/-- Claim C2 as amended: the classification error is raised, with no
transport call and no lock activity, exactly when `_resolve_area` fails on
the successfully translated address — (i) if it fails, both operations
return the error with an empty trace; (ii)-(iii) conversely, whenever Read
or Write raises the classification error, the trace is empty and the error
came from `_resolve_area` on the translated address.  The claim's second
family does not raise the classification error at all: (iv) an
area-resolving address of length ≥ 2 matching no sub-type selector falls
through with the defaults — Read issues a 1-byte transport read at offset
0 and returns no decoded value, Write additionally writes the unmodified
buffer back — while (v) a one-letter area-resolving address raises
`IndexError` at `mem[1]`, again with no transport call. -/
theorem C2_thm :
    (∀ (s t : List Char) (v : PValue) (dev : Dev),
      translate s = .ok t → resolveArea (lower t) = .error .areaErr →
      getMemR dev s = (.error .areaErr, []) ∧
      writeMemR dev s v = (.error .areaErr, [])) ∧
    (∀ (dev : Dev) (s : List Char) (tr : List Ev),
      getMemR dev s = (.error .areaErr, tr) →
      tr = [] ∧ ∃ t, translate s = .ok t ∧
        resolveArea (lower t) = .error .areaErr) ∧
    (∀ (dev : Dev) (s : List Char) (v : PValue) (tr : List Ev),
      writeMemR dev s v = (.error .areaErr, tr) →
      tr = [] ∧ ∃ t, translate s = .ok t ∧
        resolveArea (lower t) = .error .areaErr) ∧
    (∀ (dev : Dev) (s t : List Char) (area : Area) (c1 : Char) (v : PValue),
      translate s = .ok t → isPre ['d', 'b'] (lower t) = false →
      resolveArea (lower t) = .ok area → pyGet (lower t) 1 = .ok c1 →
      ¬c1 = 'x' → ¬c1 = 'b' → ¬c1 = 'w' → ¬c1 = 'd' →
      (isPre ['a', 'i', 'w'] (lower t) || isPre ['a', 'q', 'w'] (lower t) ||
        isPre ['i', 'w'] (lower t) || isPre ['q', 'w'] (lower t) ||
        isPre ['v', 'w'] (lower t)) = false →
      isPre ['v', 'd'] (lower t) = false →
      getMemR dev s = (.ok none, [.lockAcq, .readE area 0 0 1, .lockRel]) ∧
      writeMemR dev s v =
        (.ok (writeArea dev area 0 0 (readArea dev area 0 0 1), 0),
         [.lockAcq, .readE area 0 0 1, .lockRel, .lockAcq,
          .writeE area 0 0 (readArea dev area 0 0 1), .sleepE 50,
          .lockRel])) ∧
    (∀ (dev : Dev) (s t : List Char) (area : Area) (v : PValue),
      translate s = .ok t → isPre ['d', 'b'] (lower t) = false →
      resolveArea (lower t) = .ok area →
      pyGet (lower t) 1 = .error .indexErr →
      getMemR dev s = (.error .indexErr, []) ∧
      writeMemR dev s v = (.error .indexErr, [])) := by
  refine ⟨?_, ?_, ?_, ?_, ?_⟩
  · intro s t v dev ht ha
    have hp := parseAddr_resolve_err ha
    constructor
    · unfold getMemR
      rw [ht]
      dsimp only
      rw [hp]
    · unfold writeMemR
      rw [ht]
      dsimp only
      unfold getMemRaw
      rw [translate_lower_fix ht]
      dsimp only
      rw [hp]
  · intro dev s tr h
    unfold getMemR at h
    cases ht : translate s with
    | error e =>
      rw [ht] at h
      dsimp only at h
      injection h with h1 h2
      have h3 : e = .areaErr := (Except.error.injEq _ _).mp h1
      rw [translate_err_inv ht] at h3
      cases h3
    | ok t =>
      rw [ht] at h
      dsimp only at h
      cases hp : parseAddr (lower t) with
      | error e =>
        rw [hp] at h
        dsimp only at h
        injection h with h1 h2
        have h3 : e = .areaErr := (Except.error.injEq _ _).mp h1
        subst h3
        exact ⟨h2.symm, t, rfl, parseAddr_areaErr_inv hp⟩
      | ok p =>
        rw [hp] at h
        dsimp only at h
        injection h with h1 h2
        exact absurd h1 (decodeVal_no_areaErr _ _ _)
  · intro dev s v tr h
    unfold writeMemR at h
    cases ht : translate s with
    | error e =>
      rw [ht] at h
      dsimp only at h
      injection h with h1 h2
      have h3 : e = .areaErr := (Except.error.injEq _ _).mp h1
      rw [translate_err_inv ht] at h3
      cases h3
    | ok t0 =>
      rw [ht] at h
      dsimp only at h
      rcases hraw : getMemRaw dev (lower t0) with ⟨res, tr1⟩
      rw [hraw] at h
      cases res with
      | error e =>
        dsimp only at h
        injection h with h1 h2
        have h3 : e = .areaErr := (Except.error.injEq _ _).mp h1
        subst h3
        obtain ⟨htr1, t1, ht1, hpe⟩ := getMemRaw_areaErr_inv hraw
        have ht10 : t1 = t0 := by
          have hfix := translate_lower_fix ht
          rw [ht1] at hfix
          exact (Except.ok.injEq _ _).mp hfix
        subst ht10
        refine ⟨by rw [← h2]; exact htr1, t1, rfl, parseAddr_areaErr_inv hpe⟩
      | ok data =>
        dsimp only at h
        cases hm : writeMut (lower t0) data v with
        | error e =>
          rw [hm] at h
          dsimp only at h
          injection h with h1 h2
          have h3 : e = .areaErr := (Except.error.injEq _ _).mp h1
          subst h3
          obtain ⟨t1, p, ht1, hp1, hdata, htr1⟩ := getMemRaw_ok_inv hraw
          have ht10 : t1 = t0 := by
            have hfix := translate_lower_fix ht
            rw [ht1] at hfix
            exact (Except.ok.injEq _ _).mp hfix
          subst ht10
          subst hdata
          obtain ⟨hmuteq, -, -, -, -, -, -⟩ :=
            parse_corr (lower t1)
              (readArea dev p.area p.db_number p.start p.length) v p hp1
          rw [hmuteq] at hm
          exact absurd hm (mutSpec_no_areaErr _ _ _ _)
        | ok quad =>
          obtain ⟨a2, dbn2, st2, d22⟩ := quad
          rw [hm] at h
          dsimp only at h
          injection h with h1 h2
          cases h1
  · intro dev s t area c1 v ht hdb hra h1 hx hb hw hd hw5 hvd
    have hfall := parseAddr_fall hdb hra h1 hx hb hw hd hw5 hvd
    have haiw : isPre ['a', 'i', 'w'] (lower t) = false := by
      simp only [Bool.or_eq_false_iff] at hw5
      exact hw5.1.1.1.1
    constructor
    · unfold getMemR
      rw [ht]
      dsimp only
      rw [hfall]
      rfl
    · unfold writeMemR
      rw [ht]
      dsimp only
      have hraw : getMemRaw dev (lower t) = (.ok (readArea dev area 0 0 1),
          [.lockAcq, .readE area 0 0 1, .lockRel]) := by
        unfold getMemRaw
        rw [translate_lower_fix ht]
        dsimp only
        rw [hfall]
      rw [hraw]
      dsimp only
      have hwm : writeMut (lower t) (readArea dev area 0 0 1) v =
          .ok (area, 0, 0, readArea dev area 0 0 1) := by
        rw [(parse_corr (lower t) (readArea dev area 0 0 1) v _ hfall).1]
        unfold mutSpec
        rw [if_neg (by rw [haiw]; simp)]
      rw [hwm]
      rfl
  · intro dev s t area v ht hdb hra h1
    have hshort := parseAddr_short hdb hra h1
    constructor
    · unfold getMemR
      rw [ht]
      dsimp only
      rw [hshort]
    · unfold writeMemR
      rw [ht]
      dsimp only
      unfold getMemRaw
      rw [translate_lower_fix ht]
      dsimp only
      rw [hshort]

theorem C2_witness :
    (getMemR dev0 "unknown".data = (.error .areaErr, []) ∧
      writeMemR dev0 "unknown".data (.pint 1) = (.error .areaErr, [])) ∧
    (([] : List Ev) = [] ∧ ∃ t, translate "unknown".data = .ok t ∧
      resolveArea (lower t) = .error .areaErr) ∧
    (getMemR dev0 "m100".data =
        (.ok none, [.lockAcq, .readE .MK 0 0 1, .lockRel]) ∧
      writeMemR dev0 "m100".data (.pint 7) =
        (.ok (writeArea dev0 .MK 0 0 (readArea dev0 .MK 0 0 1), 0),
         [.lockAcq, .readE .MK 0 0 1, .lockRel, .lockAcq,
          .writeE .MK 0 0 (readArea dev0 .MK 0 0 1), .sleepE 50,
          .lockRel])) ∧
    (getMemR dev0 ['m'] = (.error .indexErr, []) ∧
      writeMemR dev0 ['m'] (.pint 1) = (.error .indexErr, [])) :=
  ⟨C2_thm.1 "unknown".data "UNKNOWN".data (.pint 1) dev0 rfl rfl,
   C2_thm.2.1 dev0 "unknown".data [] rfl,
   C2_thm.2.2.2.1 dev0 "m100".data "M100".data .MK '1' (.pint 7)
     rfl rfl rfl rfl (by decide) (by decide) (by decide) (by decide) rfl rfl,
   C2_thm.2.2.2.2 dev0 ['m'] ['M'] .MK (.pint 1) rfl rfl rfl rfl⟩

/-- Claim C4, counterexample: `"M1.0.2"` matches none of the three alias
forms (it is not `M<byte>.<bit>`), so per the claim it should be returned
unchanged upper-cased; instead the two-variable unpacking of the 3-part
split raises `ValueError`. -/
theorem C4_cx : translate "M1.0.2".data = .error .valueErr := rfl

/-- Claim C4 as amended: the two scenario resolutions hold exactly as
claimed (`M1.0 → VX1.0`, Marker, width 1, byte 1, bit 0; and
`VD100 → DB1.DBD100`, DataBlock 1, width 4, float, offset 100), and the
alias rules fire on prefixes alone, case-insensitively: any address whose
upper-case form starts with `M` and contains exactly one dot rewrites
`M<byte>.<bit> → VX<byte>.<bit>`; with two or more dots it raises
`ValueError` instead of passing through; `VD<rest>`/`VW<rest>` rewrite to
`DB1.DBD<rest>`/`DB1.DBW<rest>`; every string matching none of the three
patterns is returned unchanged apart from upper-casing. -/
theorem C4_thm :
    (translate "M1.0".data = .ok "VX1.0".data ∧
      parseAddr (lower "VX1.0".data) = .ok ⟨.MK, 0, 1, 0, 1, some .BOOL⟩) ∧
    (translate "VD100".data = .ok "DB1.DBD100".data ∧
      parseAddr (lower "DB1.DBD100".data) =
        .ok ⟨.DB, 1, 100, 0, 4, some .REAL⟩) ∧
    (∀ (m0 : Char) (b t : List Char), m0.toUpper = 'M' →
      hasChar '.' b = false → hasChar '.' t = false →
      translate (m0 :: (b ++ '.' :: t)) =
        .ok ('V' :: 'X' :: (upper b ++ '.' :: upper t))) ∧
    (∀ (m0 : Char) (b c r : List Char), m0.toUpper = 'M' →
      hasChar '.' b = false → hasChar '.' c = false →
      translate (m0 :: (b ++ '.' :: (c ++ '.' :: r))) = .error .valueErr) ∧
    (∀ (v0 d0 : Char) (r : List Char), v0.toUpper = 'V' → d0.toUpper = 'D' →
      translate (v0 :: d0 :: r) = .ok ("DB1.DBD".data ++ upper r)) ∧
    (∀ (v0 w0 : Char) (r : List Char), v0.toUpper = 'V' → w0.toUpper = 'W' →
      translate (v0 :: w0 :: r) = .ok ("DB1.DBW".data ++ upper r)) ∧
    (∀ s : List Char, (isPre ['M'] (upper s) && hasChar '.' (upper s)) = false →
      isPre ['V', 'D'] (upper s) = false → isPre ['V', 'W'] (upper s) = false →
      translate s = .ok (upper s)) := by
  refine ⟨⟨rfl, rfl⟩, ⟨rfl, rfl⟩, ?_, ?_, ?_, ?_, ?_⟩
  · intro m0 b t hm hb ht
    refine translate_m ?_ (by rw [hasChar_upper_dot]; exact hb)
      (by rw [hasChar_upper_dot]; exact ht)
    rw [upper_cons, hm, upper_append, upper_cons]
    rfl
  · intro m0 b c r hm hb hc
    refine translate_m_err (r := upper r) ?_
      (by rw [hasChar_upper_dot]; exact hb)
      (by rw [hasChar_upper_dot]; exact hc)
    rw [upper_cons, hm, upper_append, upper_cons, upper_append, upper_cons]
    rfl
  · intro v0 d0 r hv hd
    exact translate_vd (by rw [upper_cons, upper_cons, hv, hd])
  · intro v0 w0 r hv hw
    exact translate_vw (by rw [upper_cons, upper_cons, hv, hw])
  · intro s hM hVD hVW
    exact translate_other hM hVD hVW

theorem C4_witness :
    translate "m2.5".data = .ok "VX2.5".data ∧
    translate "M7.3.9".data = .error .valueErr ∧
    translate "vd8".data = .ok "DB1.DBD8".data ∧
    translate "vw4".data = .ok "DB1.DBW4".data ∧
    translate "QX0.1".data = .ok "QX0.1".data := by
  refine ⟨?_, ?_, ?_, ?_, ?_⟩
  · exact C4_thm.2.2.1 'm' ['2'] ['5'] (by decide) (by decide) (by decide)
  · exact C4_thm.2.2.2.1 'M' ['7'] ['3'] ['9'] (by decide) (by decide) (by decide)
  · exact C4_thm.2.2.2.2.1 'v' 'd' ['8'] (by decide) (by decide)
  · exact C4_thm.2.2.2.2.2.1 'v' 'w' ['4'] (by decide) (by decide)
  · exact C4_thm.2.2.2.2.2.2 "QX0.1".data (by decide) (by decide) (by decide)

/-- Claim C10: word reads decode as big-endian signed two's complement —
any first byte with the high bit set yields a negative integer, `0xFFFF`
reads as `-1` at `DB1.DBW0` — and a word write is accepted exactly for
values in `[-32768, 32767]` (`struct.pack(">h", …)` raises outside it;
`writeMem` of 40000 fails with a `struct.error`). -/
theorem C10_thm :
    (∀ (b0 b1 : Nat) (rest : List Nat), 128 ≤ b0 → b0 < 256 → b1 < 256 →
      get_int (b0 :: b1 :: rest) 0 = .ok ((b0 : Int) * 256 + b1 - 65536) ∧
      ((b0 : Int) * 256 + b1 - 65536) < 0) ∧
    (∀ (buf : List Nat) (v : Int),
      isOkE (set_int buf 0 (.pint v)) = true ↔ -32768 ≤ v ∧ v ≤ 32767) ∧
    (getMemR devFF "DB1.DBW0".data).1 = .ok (some (.pint (-1))) ∧
    (writeMemR dev0 "DB1.DBW0".data (.pint 40000)).1 = .error .structErr := by
  refine ⟨?_, ?_, rfl, rfl⟩
  · intro b0 b1 rest h128 hb0 hb1
    have he : get_int (b0 :: b1 :: rest) 0 =
        .ok (toSigned16 ((b0 % 256) * 256 + b1 % 256)) := rfl
    rw [he, Nat.mod_eq_of_lt hb0, Nat.mod_eq_of_lt hb1]
    unfold toSigned16
    rw [if_neg (by omega)]
    constructor
    · exact congrArg Except.ok (by push_cast; ring)
    · omega
  · intro buf v
    unfold set_int pyInt
    dsimp only
    by_cases hr : v < -32768 ∨ 32767 < v
    · rw [if_pos hr]
      simp only [isOkE]
      constructor
      · intro h; cases h
      · intro h; omega
    · rw [if_neg hr]
      constructor
      · intro _
        omega
      · intro _
        rfl

theorem C10_witness :
    get_int [255, 255] 0 = .ok (-1) ∧
    (isOkE (set_int [0, 0] 0 (.pint 40000)) = true ↔
      (-32768 ≤ (40000 : Int) ∧ (40000 : Int) ≤ 32767)) := by
  constructor
  · have h := (C10_thm.1 255 255 [] (by decide) (by decide) (by decide)).1
    norm_num at h
    exact h
  · exact C10_thm.2.1 [0, 0] 40000

/-- Claim C7: every transport call of `getMem` and `writeMem` happens
while the session lock is held (the trace is lock-balanced with every
`read_area`/`write_area` at positive hold depth), and a successful write
transaction's trace ends with the device write followed by the 50 ms
settling sleep and only then the lock release. -/
theorem C7_thm :
    (∀ (dev : Dev) (s : List Char), underLock 0 (getMemR dev s).2 = true) ∧
    (∀ (dev : Dev) (s : List Char) (v : PValue),
      underLock 0 (writeMemR dev s v).2 = true) ∧
    (∀ (dev : Dev) (s : List Char) (v : PValue) (dv : Dev) (rc : Nat)
        (tr : List Ev), writeMemR dev s v = (.ok (dv, rc), tr) →
      ∃ a dbn st len a2 dbn2 st2 d2, tr =
        [.lockAcq, .readE a dbn st len, .lockRel,
         .lockAcq, .writeE a2 dbn2 st2 d2, .sleepE 50, .lockRel]) := by
  refine ⟨?_, ?_, ?_⟩
  · intro dev s
    rcases getMemR_total dev s with ⟨e, heq⟩ | ⟨r, a, dbn, st, len, heq⟩ <;>
      rw [heq] <;> rfl
  · intro dev s v
    rcases writeMemR_total dev s v with ⟨e, heq⟩ |
      ⟨e, a, dbn, st, len, heq⟩ |
      ⟨dv, a, dbn, st, len, a2, dbn2, st2, d2, heq⟩ <;> rw [heq] <;> rfl
  · intro dev s v dv rc tr h
    rcases writeMemR_total dev s v with ⟨e, heq⟩ |
      ⟨e, a, dbn, st, len, heq⟩ |
      ⟨dv2, a, dbn, st, len, a2, dbn2, st2, d2, heq⟩
    · rw [heq] at h
      injection h with h1 h2
      cases h1
    · rw [heq] at h
      injection h with h1 h2
      cases h1
    · rw [heq] at h
      injection h with h1 h2
      exact ⟨a, dbn, st, len, a2, dbn2, st2, d2, h2.symm⟩

theorem C7_witness :
    ∃ a dbn st len a2 dbn2 st2 d2,
      ([Ev.lockAcq, Ev.readE Area.MK 0 0 1, Ev.lockRel, Ev.lockAcq,
        Ev.writeE Area.MK 0 0 [1], Ev.sleepE 50, Ev.lockRel] : List Ev) =
      [.lockAcq, .readE a dbn st len, .lockRel,
       .lockAcq, .writeE a2 dbn2 st2 d2, .sleepE 50, .lockRel] :=
  C7_thm.2.2 dev0 ['v', 'x', '0', '.', '0'] (.pbool true)
    (writeArea dev0 .MK 0 0 [1]) 0
    [Ev.lockAcq, Ev.readE Area.MK 0 0 1, Ev.lockRel, Ev.lockAcq,
     Ev.writeE Area.MK 0 0 [1], Ev.sleepE 50, Ev.lockRel] rfl

/-- Claim C6 counterexample: for `"aiw5"` the single write transaction's
read targets byte offset 5 (start parsed from the address), but the write
targets byte offset 0 — the write-side word-alias tuple
`("aqw", "qw", "vw")` (line 269) omits `"aiw"`, so `start` keeps its
default `0` — and the two offsets differ. -/
theorem C6_cx :
    (writeMemR dev0 ['a', 'i', 'w', '5'] (.pint 3)).2 =
      [Ev.lockAcq, Ev.readE Area.PE 0 5 2, Ev.lockRel, Ev.lockAcq,
       Ev.writeE Area.PE 0 0 [0, 0], Ev.sleepE 50, Ev.lockRel] ∧
    (5 : Int) ≠ 0 :=
  ⟨rfl, by decide⟩

/-- Claim C6 (amended): every successful write transaction issues exactly
one device read followed by exactly one device write in its trace, with
the same area and data-block number; the write's byte offset equals the
read's except for `aiw…` addresses, where it is the default 0.  The
concrete scenario holds: writing `true` to `VX0.0` over the zeroed device
(pre-existing buffer `0x00`) writes back the buffer `0x01`. -/
theorem C6_thm :
    (∀ (dev : Dev) (s : List Char) (v : PValue) (dv : Dev) (rc : Nat)
        (tr : List Ev), writeMemR dev s v = (.ok (dv, rc), tr) →
      ∃ t p st d2, translate s = .ok t ∧ parseAddr (lower t) = .ok p ∧
        tr = [.lockAcq, .readE p.area p.db_number p.start p.length, .lockRel,
          .lockAcq, .writeE p.area p.db_number st d2, .sleepE 50, .lockRel] ∧
        (st = p.start ∨ isPre ['a', 'i', 'w'] (lower t) = true)) ∧
    (writeMemR dev0 ['v', 'x', '0', '.', '0'] (.pbool true)).2 =
      [Ev.lockAcq, Ev.readE Area.MK 0 0 1, Ev.lockRel, Ev.lockAcq,
       Ev.writeE Area.MK 0 0 [1], Ev.sleepE 50, Ev.lockRel] := by
  constructor
  · intro dev s v dv rc tr h
    obtain ⟨t, p, a, dbn, st, d2, ht, hp, hmut, hdv, hrc, htr⟩ :=
      writeMemR_ok_inv h
    obtain ⟨hmuteq, -, -, -, -, -, -⟩ :=
      parse_corr (lower t) (readArea dev p.area p.db_number p.start p.length)
        v p hp
    rw [hmuteq] at hmut
    obtain ⟨ha, hdbn, hst⟩ := mutSpec_ok_inv hmut
    subst ha
    subst hdbn
    exact ⟨t, p, st, d2, ht, hp, htr, hst⟩
  · rfl

theorem C6_witness :
    ∃ t p st d2, translate ['v', 'x', '1', '.', '0'] = .ok t ∧
      parseAddr (lower t) = .ok p ∧
      ([Ev.lockAcq, Ev.readE Area.MK 0 1 1, Ev.lockRel, Ev.lockAcq,
        Ev.writeE Area.MK 0 1 [255], Ev.sleepE 50, Ev.lockRel] : List Ev) =
        [.lockAcq, .readE p.area p.db_number p.start p.length, .lockRel,
         .lockAcq, .writeE p.area p.db_number st d2, .sleepE 50, .lockRel] ∧
      (st = p.start ∨ isPre ['a', 'i', 'w'] (lower t) = true) :=
  C6_thm.1 devFF ['v', 'x', '1', '.', '0'] (.pbool true)
    (writeArea devFF .MK 0 1 [255]) 0
    [Ev.lockAcq, Ev.readE Area.MK 0 1 1, Ev.lockRel, Ev.lockAcq,
     Ev.writeE Area.MK 0 1 [255], Ev.sleepE 50, Ev.lockRel] rfl

/-- Claim C5: for every bit-typed address (inferred `OutputType.BOOL`), a
successful write transaction writes back, to the very offset it read, a
buffer of the same length whose bits all agree with the buffer read from
the device except the single bit at (byte 0, the resolved bit offset). -/
theorem C5_thm (dev : Dev) (s : List Char) (v : PValue) (t : List Char)
    (p : PMem) (dv : Dev) (rc : Nat) (tr : List Ev)
    (ht : translate s = .ok t) (hp : parseAddr (lower t) = .ok p)
    (hb : p.out_type = some .BOOL)
    (hw : writeMemR dev s v = (.ok (dv, rc), tr)) :
    ∃ d2 : List Nat,
      tr = [.lockAcq, .readE p.area p.db_number p.start p.length, .lockRel,
        .lockAcq, .writeE p.area p.db_number p.start d2, .sleepE 50,
        .lockRel] ∧
      d2.length = (readArea dev p.area p.db_number p.start p.length).length ∧
      ∀ j k, ¬(j = 0 ∧ k = p.bit.toNat) →
        (d2.getD j 0).testBit k =
          ((readArea dev p.area p.db_number p.start p.length).getD j
            0).testBit k := by
  obtain ⟨t1, p1, a, dbn, st, d2, ht1, hp1, hmut, hdv, hrc, htr⟩ :=
    writeMemR_ok_inv hw
  have het : t = t1 := (Except.ok.injEq _ _).mp (ht.symm.trans ht1)
  subst het
  have hep : p = p1 := (Except.ok.injEq _ _).mp (hp.symm.trans hp1)
  subst hep
  obtain ⟨hmuteq, -, -, -, -, -, haiw2⟩ :=
    parse_corr (lower t) (readArea dev p.area p.db_number p.start p.length)
      v p hp
  have haiw : isPre ['a', 'i', 'w'] (lower t) = false := by
    cases hx : isPre ['a', 'i', 'w'] (lower t)
    · rfl
    · obtain ⟨hint, -⟩ := haiw2 hx
      rw [hb] at hint
      simp at hint
  rw [hmuteq] at hmut
  obtain ⟨ha, hdbn, hst, n, hn, hsb⟩ := mutSpec_bool_inv hb haiw hmut
  subst ha
  subst hdbn
  subst hst
  obtain ⟨hlen, hframe⟩ := set_bool_frame hsb
  exact ⟨d2, htr, hlen, hframe⟩

theorem C5_witness :
    ∃ d2 : List Nat,
      ([Ev.lockAcq, Ev.readE Area.MK 0 0 1, Ev.lockRel, Ev.lockAcq,
        Ev.writeE Area.MK 0 0 [253], Ev.sleepE 50, Ev.lockRel] : List Ev) =
        [.lockAcq, .readE Area.MK 0 0 1, .lockRel,
         .lockAcq, .writeE Area.MK 0 0 d2, .sleepE 50, .lockRel] ∧
      d2.length = ([255] : List Nat).length ∧
      ∀ j k, ¬(j = 0 ∧ k = 1) →
        (d2.getD j 0).testBit k = (([255] : List Nat).getD j 0).testBit k :=
  C5_thm devFF ['v', 'x', '0', '.', '1'] (.pbool false)
    ['V', 'X', '0', '.', '1'] ⟨Area.MK, 0, 0, 1, 1, some .BOOL⟩
    (writeArea devFF .MK 0 0 [253]) 0
    [Ev.lockAcq, Ev.readE Area.MK 0 0 1, Ev.lockRel, Ev.lockAcq,
     Ev.writeE Area.MK 0 0 [253], Ev.sleepE 50, Ev.lockRel]
    rfl rfl rfl rfl

/-- Claim C1 counterexample: writing the int 7 to `"aiw3"` succeeds, but
the value is ignored — the write-side branch tuple omits `"aiw"`, so the
unmodified zero buffer is written back (at offset 0) — and reading
`"aiw3"` back returns 0, not 7. -/
theorem C1_cx :
    isOkE (writeMemR dev0 ['a', 'i', 'w', '3'] (.pint 7)).1 = true ∧
    (getMemR (devOf (writeMemR dev0 ['a', 'i', 'w', '3'] (.pint 7)))
      ['a', 'i', 'w', '3']).1 = .ok (some (.pint 0)) ∧
    some (PValue.pint 0) ≠ some (PValue.pint 7) :=
  ⟨rfl, rfl, by simp⟩

/-- Claim C1 (amended): (1) for every classified non-`aiw` address over
the zeroed device, if a Write of a type-matching value succeeds and the
subsequent Read succeeds, the Read returns exactly the written value —
booleans, int16 and uint32 exactly, floats bit-exact.  (2) The
byte-width (`B`/`DBB`) case never completes: the read-back of every
byte-width-classified address raises `IndexError` (`get_int` on the
1-byte buffer), so the round trip is unachievable there even though the
write itself succeeds — shown concretely at `vb3` in (3).  Instances
(4)-(6) complete genuine round trips for a word (`vw2` ↦ 300), a float
(`vd0` ↦ bit pattern 1078530011) and a dword (`id4` ↦ 70000), and (7)
shows a bit write with bit index > 7 (`vx0.9`) failing at the write. -/
theorem C1_thm :
    (∀ (s : List Char) (v : PValue) (t : List Char) (p : PMem)
        (dv : Dev) (rc : Nat) (tr tr2 : List Ev) (w : Option PValue),
      translate s = .ok t → parseAddr (lower t) = .ok p →
      typeMatches p.out_type v = true → wfPV v = true →
      isPre ['a', 'i', 'w'] (lower t) = false →
      writeMemR dev0 s v = (.ok (dv, rc), tr) →
      getMemR dv s = (.ok w, tr2) →
      w = some v) ∧
    (∀ (dev : Dev) (s t : List Char) (p : PMem),
      translate s = .ok t → parseAddr (lower t) = .ok p →
      p.out_type = some .INT → p.length = 1 →
      getMemR dev s = (.error .indexErr,
        [.lockAcq, .readE p.area p.db_number p.start 1, .lockRel])) ∧
    (isOkE (writeMemR dev0 ['v', 'b', '3'] (.pint 7)).1 = true ∧
      (getMemR (devOf (writeMemR dev0 ['v', 'b', '3'] (.pint 7)))
        ['v', 'b', '3']).1 = .error .indexErr) ∧
    (isOkE (writeMemR dev0 ['v', 'w', '2'] (.pint 300)).1 = true ∧
      (getMemR (devOf (writeMemR dev0 ['v', 'w', '2'] (.pint 300)))
        ['v', 'w', '2']).1 = .ok (some (.pint 300))) ∧
    (isOkE (writeMemR dev0 ['v', 'd', '0'] (.preal 1078530011)).1 = true ∧
      (getMemR (devOf (writeMemR dev0 ['v', 'd', '0'] (.preal 1078530011)))
        ['v', 'd', '0']).1 = .ok (some (.preal 1078530011))) ∧
    (isOkE (writeMemR dev0 ['i', 'd', '4'] (.pdword 70000)).1 = true ∧
      (getMemR (devOf (writeMemR dev0 ['i', 'd', '4'] (.pdword 70000)))
        ['i', 'd', '4']).1 = .ok (some (.pdword 70000))) ∧
    (writeMemR dev0 ['v', 'x', '0', '.', '9'] (.pbool true)).1 =
      .error .valueErr := by
  refine ⟨?_, ?_, ⟨rfl, rfl⟩, ⟨rfl, rfl⟩, ⟨rfl, rfl⟩, ⟨rfl, rfl⟩, rfl⟩
  · intro s v t p dv rc tr tr2 w ht hp htm hwf haiw hw hr
    obtain ⟨t1, p1, a, dbn, st, d2, ht1, hp1, hmut, hdv, hrc, htr⟩ :=
      writeMemR_ok_inv hw
    have het : t = t1 := (Except.ok.injEq _ _).mp (ht.symm.trans ht1)
    subst het
    have hep : p = p1 := (Except.ok.injEq _ _).mp (hp.symm.trans hp1)
    subst hep
    subst hdv
    obtain ⟨t2, p2, ht2, hp2, hdec, htr2⟩ := getMemR_ok_inv hr
    have het2 : t = t2 := (Except.ok.injEq _ _).mp (ht.symm.trans ht2)
    subst het2
    have hep2 : p = p2 := (Except.ok.injEq _ _).mp (hp.symm.trans hp2)
    subst hep2
    obtain ⟨hmuteq, hlb, hli, hlr, hld, -, -⟩ :=
      parse_corr (lower t) (readArea dev0 p.area p.db_number p.start p.length)
        v p hp
    rw [hmuteq] at hmut
    have hdata := readArea_dev0 p.area p.db_number p.start p.length
    cases hot : p.out_type with
    | none =>
      rw [hot] at htm
      cases v <;> simp [typeMatches] at htm
    | some ot =>
      cases ot with
      | BOOL =>
        rw [hot] at htm
        cases v with
        | pint n0 => simp [typeMatches] at htm
        | preal n0 => simp [typeMatches] at htm
        | pdword n0 => simp [typeMatches] at htm
        | pbool b =>
          obtain ⟨ha, hdbn, hst, n, hn, hsb⟩ := mutSpec_bool_inv hot haiw hmut
          subst ha
          subst hdbn
          subst hst
          have hl1 : p.length = 1 := hlb hot
          rw [hdata, hl1] at hsb
          have hrep1 : List.replicate 1 (0 : Nat) = [0] := rfl
          rw [hrep1] at hsb
          obtain ⟨hbge, hcase⟩ := set_bool_zero_inv p.bit n d2 hsb
          rw [hot, hl1] at hdec
          cases b with
          | true =>
            have hn1 : n = 1 := by
              have hred : pyInt (.pbool true) = .ok (1 : Int) := rfl
              rw [hred] at hn
              exact ((Except.ok.injEq _ _).mp hn).symm
            subst hn1
            rcases hcase with ⟨-, hd2, -⟩ | ⟨hc0, -⟩
            · subst hd2
              have hrb : readArea (writeArea dev0 p.area p.db_number p.start
                  [2 ^ p.bit.toNat]) p.area p.db_number p.start 1 =
                  [2 ^ p.bit.toNat] := by
                rw [readArea_writeArea dev0 p.area p.db_number p.start _ 1
                  (by simp)]
                rfl
              rw [hrb] at hdec
              simp only [decodeVal] at hdec
              rw [get_bool_pow p.bit hbge] at hdec
              dsimp only at hdec
              exact ((Except.ok.injEq _ _).mp hdec).symm
            · exact absurd hc0 (by norm_num)
          | false =>
            have hn0 : n = 0 := by
              have hred : pyInt (.pbool false) = .ok (0 : Int) := rfl
              rw [hred] at hn
              exact ((Except.ok.injEq _ _).mp hn).symm
            subst hn0
            rcases hcase with ⟨hc1, -, -⟩ | ⟨-, hd2⟩
            · exact absurd hc1 (by norm_num)
            · subst hd2
              have hrb : readArea (writeArea dev0 p.area p.db_number p.start
                  [0]) p.area p.db_number p.start 1 = [0] := by
                rw [readArea_writeArea dev0 p.area p.db_number p.start _ 1
                  (by simp)]
                rfl
              rw [hrb] at hdec
              simp only [decodeVal] at hdec
              rw [get_bool_zero p.bit hbge] at hdec
              dsimp only at hdec
              exact ((Except.ok.injEq _ _).mp hdec).symm
      | INT =>
        rw [hot] at htm
        cases v with
        | pbool b => simp [typeMatches] at htm
        | preal n0 => simp [typeMatches] at htm
        | pdword n0 => simp [typeMatches] at htm
        | pint m =>
          obtain ⟨ha, hdbn, hst, hsi⟩ := mutSpec_int_inv hot haiw hmut
          subst ha
          subst hdbn
          subst hst
          rw [hdata] at hsi
          have hdrop : (List.replicate p.length (0 : Nat)).drop 2 = [] := by
            rcases hli hot with hl | hl <;> rw [hl] <;> rfl
          obtain ⟨hge, hle2, hd2⟩ := set_int_ok_inv hdrop hsi
          subst hd2
          rw [hot] at hdec
          have hult : (m % 65536).toNat < 65536 := by
            have h1 : 0 ≤ m % 65536 := Int.emod_nonneg m (by norm_num)
            have h2 : m % 65536 < 65536 := Int.emod_lt_of_pos m (by norm_num)
            omega
          rcases hli hot with hl | hl <;> rw [hl] at hdec
          · have hrb : readArea (writeArea dev0 p.area p.db_number p.start
                [(m % 65536).toNat / 256, (m % 65536).toNat % 256]) p.area
                p.db_number p.start 1 = [(m % 65536).toNat / 256] := by
              rw [readArea_writeArea dev0 p.area p.db_number p.start _ 1
                (by simp)]
              rfl
            rw [hrb] at hdec
            simp only [decodeVal] at hdec
            rw [get_int_one] at hdec
            dsimp only at hdec
            cases hdec
          · have hrb : readArea (writeArea dev0 p.area p.db_number p.start
                [(m % 65536).toNat / 256, (m % 65536).toNat % 256]) p.area
                p.db_number p.start 2 =
                [(m % 65536).toNat / 256, (m % 65536).toNat % 256] := by
              rw [readArea_writeArea dev0 p.area p.db_number p.start _ 2
                (by simp)]
              rfl
            rw [hrb] at hdec
            simp only [decodeVal] at hdec
            rw [get_int_two] at hdec
            dsimp only at hdec
            have harg : ((m % 65536).toNat / 256 % 256) * 256 +
                (m % 65536).toNat % 256 % 256 = (m % 65536).toNat := by omega
            rw [harg, toSigned16_emod m hge hle2] at hdec
            exact ((Except.ok.injEq _ _).mp hdec).symm
      | REAL =>
        rw [hot] at htm
        cases v with
        | pbool b => simp [typeMatches] at htm
        | pint n0 => simp [typeMatches] at htm
        | pdword n0 => simp [typeMatches] at htm
        | preal bits =>
          obtain ⟨ha, hdbn, hst, hsr⟩ := mutSpec_real_inv hot haiw hmut
          subst ha
          subst hdbn
          subst hst
          have hl4 : p.length = 4 := hlr hot
          rw [hdata, hl4] at hsr
          have hrep4 : List.replicate 4 (0 : Nat) = [0, 0, 0, 0] := rfl
          rw [hrep4] at hsr
          unfold set_real at hsr
          dsimp only [pyFloat32Bits] at hsr
          rw [setItems_four (bits / 2 ^ 24 % 256) (bits / 2 ^ 16 % 256)
            (bits / 2 ^ 8 % 256) (bits % 256) (by omega) (by omega) (by omega)
            (by omega) 0 0 0 0] at hsr
          have hd2 : d2 = [bits / 2 ^ 24 % 256, bits / 2 ^ 16 % 256,
              bits / 2 ^ 8 % 256, bits % 256] :=
            ((Except.ok.injEq _ _).mp hsr).symm
          subst hd2
          have hbits : bits < 2 ^ 32 := by simpa [wfPV] using hwf
          rw [hot, hl4] at hdec
          have hrb : readArea (writeArea dev0 p.area p.db_number p.start
              [bits / 2 ^ 24 % 256, bits / 2 ^ 16 % 256, bits / 2 ^ 8 % 256,
               bits % 256]) p.area p.db_number p.start 4 =
              [bits / 2 ^ 24 % 256, bits / 2 ^ 16 % 256, bits / 2 ^ 8 % 256,
               bits % 256] := by
            rw [readArea_writeArea dev0 p.area p.db_number p.start _ 4
              (by simp)]
            rfl
          rw [hrb] at hdec
          simp only [decodeVal] at hdec
          rw [get_real_four] at hdec
          dsimp only at hdec
          rw [bytes32_reassemble bits hbits] at hdec
          exact ((Except.ok.injEq _ _).mp hdec).symm
      | DWORD =>
        rw [hot] at htm
        cases v with
        | pbool b => simp [typeMatches] at htm
        | pint n0 => simp [typeMatches] at htm
        | preal n0 => simp [typeMatches] at htm
        | pdword mm =>
          obtain ⟨ha, hdbn, hst, hsd⟩ := mutSpec_dword_inv hot haiw hmut
          subst ha
          subst hdbn
          subst hst
          have hl4 : p.length = 4 := hld hot
          rw [hdata, hl4] at hsd
          have hrep4 : List.replicate 4 (0 : Nat) = [0, 0, 0, 0] := rfl
          rw [hrep4] at hsd
          unfold set_dword at hsd
          dsimp only [pyInt] at hsd
          split at hsd
          · cases hsd
          · next hrange =>
            push_neg at hrange
            have hmm : mm < 2 ^ 32 := by exact_mod_cast hrange.2
            have htn : ((mm : Int)).toNat = mm := by omega
            simp only [htn] at hsd
            rw [setItems_four (mm / 2 ^ 24 % 256) (mm / 2 ^ 16 % 256)
              (mm / 2 ^ 8 % 256) (mm % 256) (by omega) (by omega) (by omega)
              (by omega) 0 0 0 0] at hsd
            have hd2 : d2 = [mm / 2 ^ 24 % 256, mm / 2 ^ 16 % 256,
                mm / 2 ^ 8 % 256, mm % 256] :=
              ((Except.ok.injEq _ _).mp hsd).symm
            subst hd2
            rw [hot, hl4] at hdec
            have hrb : readArea (writeArea dev0 p.area p.db_number p.start
                [mm / 2 ^ 24 % 256, mm / 2 ^ 16 % 256, mm / 2 ^ 8 % 256,
                 mm % 256]) p.area p.db_number p.start 4 =
                [mm / 2 ^ 24 % 256, mm / 2 ^ 16 % 256, mm / 2 ^ 8 % 256,
                 mm % 256] := by
              rw [readArea_writeArea dev0 p.area p.db_number p.start _ 4
                (by simp)]
              rfl
            rw [hrb] at hdec
            simp only [decodeVal] at hdec
            rw [get_dword_four] at hdec
            dsimp only at hdec
            rw [bytes32_reassemble mm hmm] at hdec
            exact ((Except.ok.injEq _ _).mp hdec).symm
  · intro dev s t p ht hp hint hl1
    unfold getMemR
    rw [ht]
    dsimp only
    rw [hp]
    dsimp only
    rw [hint, hl1]
    have hra : readArea dev p.area p.db_number p.start 1 =
        [dev p.area p.db_number (p.start + Int.ofNat 0)] := rfl
    rw [hra]
    simp only [decodeVal]
    rw [get_int_one]

theorem C1_witness :
    typeMatches (some OutputType.BOOL) (.pbool true) = true ∧
    writeMemR dev0 ['m', '0', '.', '0'] (.pbool true) =
      (.ok (writeArea dev0 .MK 0 0 [1], 0),
       [Ev.lockAcq, Ev.readE Area.MK 0 0 1, Ev.lockRel, Ev.lockAcq,
        Ev.writeE Area.MK 0 0 [1], Ev.sleepE 50, Ev.lockRel]) ∧
    getMemR (writeArea dev0 .MK 0 0 [1]) ['m', '0', '.', '0'] =
      (.ok (some (.pbool true)),
       [Ev.lockAcq, Ev.readE Area.MK 0 0 1, Ev.lockRel]) ∧
    (some (PValue.pbool true) : Option PValue) = some (.pbool true) ∧
    getMemR dev0 ['v', 'b', '3'] = (.error .indexErr,
      [Ev.lockAcq, Ev.readE Area.MK 0 3 1, Ev.lockRel]) :=
  ⟨rfl, rfl, rfl,
    C1_thm.1 ['m', '0', '.', '0'] (.pbool true) ['V', 'X', '0', '.', '0']
      ⟨Area.MK, 0, 0, 0, 1, some .BOOL⟩ (writeArea dev0 .MK 0 0 [1]) 0
      [Ev.lockAcq, Ev.readE Area.MK 0 0 1, Ev.lockRel, Ev.lockAcq,
       Ev.writeE Area.MK 0 0 [1], Ev.sleepE 50, Ev.lockRel]
      [Ev.lockAcq, Ev.readE Area.MK 0 0 1, Ev.lockRel]
      (some (.pbool true)) rfl rfl rfl rfl rfl rfl rfl,
    C1_thm.2.1 dev0 ['v', 'b', '3'] ['V', 'B', '3']
      ⟨Area.MK, 0, 3, 0, 1, some .INT⟩ rfl rfl rfl rfl⟩


end S7
